import Mathlib

/-!
Verification development for the chunk-identity and incremental-synchronization
pipeline (src/common.py, src/03_stage2_chunk.py, src/03_stage3_build_chroma.py).

The Python sources are shallowly embedded as executable Lean functions.
External libraries consumed by the source (hashlib digests, PyYAML parsing,
datetime.fromisoformat, the sentence-transformers embedding model) are taken
as function parameters, mirroring how the source consumes them as black boxes.
Python strings are modelled as Lean `String` over their code points; the
corpus handled by this pipeline is newline-separated text, so `splitlines`
is modelled as splitting on the line feed character.  Recursions that walk a
string while skipping runs of characters take an explicit fuel argument that
the wrapper instantiates with the input length, which each step strictly
decreases, so the fuel never runs out on the wrapper's calls; this keeps
every definition structurally recursive and kernel-reducible.
-/

/-- An `out_links` record collected by `replace_wikilinks_and_collect`
(src/common.py:143): a target plus an optional alias (the `alias` key is
present only when the alias text is non-empty after stripping). -/
structure Link where
  target : String
  aliasOpt : Option String
deriving DecidableEq, Repr

/-- JSON-like metadata values appearing in this pipeline's chunk records:
strings, integers, null, lists of strings (`heading_path`), and lists of
link records (`out_links`).  This covers every value the pipeline's record
stream carries. -/
inductive JVal where
  | s (v : String)
  | i (v : Int)
  | null
  | strList (v : List String)
  | linkList (v : List Link)
deriving DecidableEq, Repr

/-- A metadata mapping, modelling a Python dict with string keys.  All dicts
built by this pipeline have distinct keys, and lookup returns the first
binding. -/
abbrev Meta := List (String × JVal)

/-- Python `m.get(k)` on a dict: `none` models both an absent key and is
distinguished from an explicit null (`some JVal.null`), matching `k in m`
versus `m.get(k) is None`. -/
def metaGet (m : Meta) (k : String) : Option JVal :=
  (List.find? (fun p => p.1 == k) m).map (fun p => p.2)

/-- One line of the chunk-batch record stream (src/03_stage2_chunk.py:118,
loaded by src/03_stage3_build_chroma.py:47): a text plus a metadata dict. -/
structure Row where
  text : String
  metadata : Meta
deriving DecidableEq, Repr

/-! ### Python string primitives

Python string operations are modelled at the level of character lists, and
`Except` results are compared decidably.  (The corresponding `String`
library functions are avoided because their byte-position recursions do not
reduce inside the kernel; these character-level versions agree with them on
the pipeline's inputs and keep every concrete run evaluable by `decide`.) -/

deriving instance DecidableEq for Except

/-- Python `str.strip()`: drop whitespace from both ends. -/
def pyTrim (s : String) : String :=
  String.mk (((s.toList.dropWhile Char.isWhitespace).reverse.dropWhile
    Char.isWhitespace).reverse)

/-- Python `str.lstrip()`: drop leading whitespace. -/
def pyTrimLeft (s : String) : String :=
  String.mk (s.toList.dropWhile Char.isWhitespace)

/-- Python `s.startswith(pre)`. -/
def strStartsWith (s pre : String) : Bool :=
  pre.toList.isPrefixOf s.toList

/-- Python `s.endswith(suf)`. -/
def strEndsWith (s suf : String) : Bool :=
  suf.toList.reverse.isPrefixOf s.toList.reverse

/-- Python `s[:n]` on code points. -/
def strTake (s : String) (n : Nat) : String :=
  String.mk (s.toList.take n)

/-- Python `sep.join(xs)`. -/
def joinWith (sep : String) : List String → String
  | [] => ""
  | x :: xs => xs.foldl (fun acc y => acc ++ sep ++ y) x

/-- Python `s.split(sep)` for a non-empty separator, over character lists:
cut at each leftmost occurrence of `sep`.  Each step consumes at least one
character, so `fuel = cs.length` suffices. -/
def splitOnGo (sep : List Char) : Nat → List Char → List Char → List (List Char)
  | _, [], cur => [cur.reverse]
  | 0, cs, cur => [cur.reverse ++ cs]
  | fuel + 1, c :: rest, cur =>
    if sep.isPrefixOf (c :: rest) then
      cur.reverse :: splitOnGo sep fuel ((c :: rest).drop sep.length) []
    else
      splitOnGo sep fuel rest (c :: cur)

/-- Python `s.split(sep)` (non-empty `sep`). -/
def strSplitOn (s sep : String) : List String :=
  (splitOnGo sep.toList s.toList.length s.toList []).map String.mk

/-- Python `str.splitlines()` for line-feed separated text: splits at every
`\n` and drops the trailing empty piece produced by a final newline. -/
def pySplitlines (s : String) : List String :=
  if s = "" then []
  else if strEndsWith s "\n" then (strSplitOn s "\n").dropLast
  else strSplitOn s "\n"

/-- Python `s.lstrip("\n")`: drop leading line feeds. -/
def lstripNewlines (s : String) : String :=
  String.mk (s.toList.dropWhile (fun c => c == '\n'))

/-- Replace every maximal run of characters satisfying `p` by `repl` applied
to the run's length (used for the `\n{3,}`, `[\s_]+` and `-{2,}` regex
substitutions).  `fuel` bounds the recursion; each step consumes at least one
character, so `fuel = cs.length` processes the whole input. -/
def replaceRuns (p : Char → Bool) (repl : Nat → List Char) :
    Nat → List Char → List Char
  | _, [] => []
  | 0, cs => cs
  | fuel + 1, c :: cs =>
    if p c then
      repl ((cs.takeWhile p).length + 1) ++
        replaceRuns p repl fuel (cs.dropWhile p)
    else
      c :: replaceRuns p repl fuel cs

/-! ### src/common.py -/

/-- `slugify` (src/common.py:62): lower-case, drop characters outside
word/space/hyphen, collapse whitespace-or-underscore runs and hyphen runs to
single hyphens, strip hyphens, defaulting to "section".  `\w` is modelled
over the pipeline's ASCII corpus as alphanumeric-or-underscore. -/
def slugify (s : String) : String :=
  let cs0 := (pyTrim s).toList.map Char.toLower
  let cs1 := cs0.filter (fun c =>
    c.isAlphanum || c == '_' || c.isWhitespace || c == '-')
  let cs2 := replaceRuns (fun c => c.isWhitespace || c == '_')
    (fun _ => ['-']) cs1.length cs1
  let cs3 := replaceRuns (fun c => c == '-') (fun _ => ['-']) cs2.length cs2
  let r := String.mk ((cs3.dropWhile (fun c => c == '-')).reverse.dropWhile
    (fun c => c == '-') |>.reverse)
  if r = "" then "section" else r

/-- `HEADING_RE` (src/common.py:162), `^\s{0,3}(#{1,6})\s+(.*)$`: returns the
heading level and the raw title text (group 2, not yet stripped), or `none`
when the line is not a heading.  The leading whitespace run must have length
at most 3, the hash run length 1..6, and at least one whitespace character
must follow the hashes. -/
def matchHeading (line : String) : Option (Nat × String) :=
  let cs := line.toList
  let w := cs.takeWhile Char.isWhitespace
  let r1 := cs.drop w.length
  let hs := r1.takeWhile (fun c => c == '#')
  let r2 := r1.drop hs.length
  let w2 := r2.takeWhile Char.isWhitespace
  if w.length ≤ 3 ∧ 1 ≤ hs.length ∧ hs.length ≤ 6 ∧ w2.length ≥ 1 then
    some (hs.length, String.mk (r2.drop w2.length))
  else
    none

/-- The quote-stripping step of `normalize_markdown_light`
(src/common.py:134): `line.lstrip()[1:].lstrip()`. -/
def stripQuoteMarker (line : String) : String :=
  pyTrimLeft (String.mk ((pyTrimLeft line).toList.drop 1))

/-- The line loop of `normalize_markdown_light` (src/common.py:128): toggle
the in-code flag at fence markers and drop them, strip blockquote markers
outside code, keep other lines (the source's `rstrip("\n")` is the identity
here because `splitlines` already removed the line feeds). -/
def normalizeLines : Bool → List String → List String
  | _, [] => []
  | inCode, l :: ls =>
    if strStartsWith (pyTrim l) "```" then
      normalizeLines (!inCode) ls
    else if !inCode && strStartsWith (pyTrimLeft l) ">" then
      stripQuoteMarker l :: normalizeLines inCode ls
    else
      l :: normalizeLines inCode ls

/-- `normalize_markdown_light` (src/common.py:115): fence/blockquote line
pass, then `re.sub(r"\n{3,}", "\n\n", text).strip() + "\n"`. -/
def normalize_markdown_light (md : String) : String :=
  let out := normalizeLines false (pySplitlines md)
  let text := joinWith "\n" out
  let cs := text.toList
  let collapsed := String.mk (replaceRuns (fun c => c == '\n')
    (fun n => if n ≥ 3 then ['\n', '\n'] else List.replicate n '\n')
    cs.length cs)
  pyTrim collapsed ++ "\n"

/-- One attempted match of `WIKILINK_RE` (src/common.py:11),
`\[\[([^\]|]+)(\|([^\]]+))?\]\]`, at the head of the character list: returns
the target characters (group 1), the optional alias characters (group 3) and
the remainder after the match.  The character classes exclude `]` (and `|`
for the target), so both groups are forced maximal runs and the regex engine
finds exactly these matches. -/
def wikilinkMatch (cs : List Char) : Option (List Char × Option (List Char) × List Char) :=
  match cs with
  | '[' :: '[' :: rest =>
    let t := rest.takeWhile (fun c => c != ']' && c != '|')
    let r1 := rest.drop t.length
    if t = [] then none
    else
      match r1 with
      | '|' :: r2 =>
        let a := r2.takeWhile (fun c => c != ']')
        let r3 := r2.drop a.length
        if a = [] then none
        else
          match r3 with
          | ']' :: ']' :: r4 => some (t, some a, r4)
          | _ => none
      | ']' :: ']' :: r4 => some (t, none, r4)
      | _ => none
  | _ => none

/-- The scan-and-substitute loop of `re.sub` for `WIKILINK_RE` with the
`_repl` callback of `replace_wikilinks_and_collect` (src/common.py:150):
at each position try a match; on success emit the alias when non-empty after
stripping, else the stripped target, record the link, and continue after the
match; otherwise copy one character.  Each step consumes at least one input
character, so `fuel = cs.length` suffices. -/
def wikilinkGo : Nat → List Char → List Char × List Link
  | _, [] => ([], [])
  | 0, cs => (cs, [])
  | fuel + 1, c :: rest =>
    match wikilinkMatch (c :: rest) with
    | some (t, a?, r') =>
      let target := pyTrim (String.mk t)
      let aliasStr := match a? with
        | some a => pyTrim (String.mk a)
        | none => ""
      let linkRec : Link :=
        { target := target
          aliasOpt := if aliasStr = "" then none else some aliasStr }
      let repl := if aliasStr = "" then target else aliasStr
      let (o, ls) := wikilinkGo fuel r'
      (repl.toList ++ o, linkRec :: ls)
    | none =>
      let (o, ls) := wikilinkGo fuel rest
      (c :: o, ls)

/-- `replace_wikilinks_and_collect` (src/common.py:143): rewrite
`[[Target]]` / `[[Target|Alias]]` to the alias when present else the target,
collecting one out-link record per match in first-to-last order. -/
def replace_wikilinks_and_collect (text : String) : String × List Link :=
  let (o, ls) := wikilinkGo text.toList.length text.toList
  (String.mk o, ls)

/-- The section accumulator of `split_into_sections` (src/common.py:197):
flush the current section at every heading of the split level (the heading
line itself is excluded from the section body), otherwise
accumulate the line. -/
def sectionGo (targetLevel : Nat) :
    List String → String → List String → List (String × String × List String)
  | [], title, cur => [(slugify title, title, cur.reverse)]
  | l :: ls, title, cur =>
    match matchHeading l with
    | some (lvl, rawTitle) =>
      if lvl = targetLevel then
        (slugify title, title, cur.reverse) ::
          sectionGo targetLevel ls (pyTrim rawTitle) []
      else
        sectionGo targetLevel ls title (l :: cur)
    | none => sectionGo targetLevel ls title (l :: cur)

/-- Minimum of a non-empty level list (`min(levels_present)`,
src/common.py:185). -/
def minLevel : List Nat → Nat
  | [] => 0
  | [x] => x
  | x :: y :: xs => min x (minLevel (y :: xs))

/-- `split_into_sections` (src/common.py:164): choose split level 2 when any
H2 exists, else the minimum present level; with no headings the whole text is
one synthetic preamble section (kept only when non-blank); flush sections at
split-level headings; a section's text is its joined lines stripped plus one
newline; a preamble-anchored section with blank text is dropped. -/
def split_into_sections (body_md : String) : List (String × String × String) :=
  let lines := pySplitlines body_md
  let levels := lines.filterMap (fun l => (matchHeading l).map (fun p => p.1))
  if levels = [] then
    let txt := pyTrim (joinWith "\n" lines) ++ "\n"
    if pyTrim txt = "" then [] else [("preamble", "preamble", txt)]
  else
    let targetLevel := if 2 ∈ levels then 2 else minLevel levels
    let secs := sectionGo targetLevel lines "preamble" []
    secs.filterMap (fun sec =>
      let txt := pyTrim (joinWith "\n" sec.2.2) ++ "\n"
      if sec.1 = "preamble" ∧ pyTrim txt = "" then none
      else some (sec.1, sec.2.1, txt))

/-- `strip_yaml_frontmatter` body search (src/common.py:38): find the first
index `≥ 1` whose stripped line is `---`. -/
def findFrontmatterEnd : Nat → List String → Option Nat
  | _, [] => none
  | i, l :: ls =>
    if pyTrim l = "---" then some i else findFrontmatterEnd (i + 1) ls

/-- `strip_yaml_frontmatter` (src/common.py:29): when the file starts with a
`---` line and a later `---` line exists, return the body after it and the
stripped YAML block; otherwise the whole text with no block. -/
def strip_yaml_frontmatter (md : String) : String × Option String :=
  let lines := pySplitlines md
  match lines with
  | [] => (md, none)
  | l0 :: rest =>
    if pyTrim l0 ≠ "---" then (md, none)
    else
      match findFrontmatterEnd 1 rest with
      | none => (md, none)
      | some i =>
        let yamlBlock := pyTrim (joinWith "\n" (lines.drop 1 |>.take (i - 1)))
        let body := lstripNewlines (joinWith "\n" (lines.drop (i + 1)))
        (body, some yamlBlock)

/-! ### src/03_stage2_chunk.py -/

/-- `re.split(r"(?<=[.!?])\s+", para)` (src/03_stage2_chunk.py:97): split at
every whitespace character preceded by sentence punctuation, consuming the
maximal whitespace run; the head of the reversed current piece is exactly the
preceding character of the original text.  Each step consumes at least one
character, so `fuel = cs.length` suffices. -/
def sentenceGo : Nat → List Char → List Char → List String
  | _, [], cur => [String.mk cur.reverse]
  | 0, cs, cur => [String.mk (cur.reverse ++ cs)]
  | fuel + 1, c :: rest, cur =>
    if c.isWhitespace &&
        (match cur with
          | p :: _ => p == '.' || p == '!' || p == '?'
          | [] => false) then
      String.mk cur.reverse ::
        sentenceGo fuel (rest.dropWhile Char.isWhitespace) []
    else
      sentenceGo fuel rest (c :: cur)

/-- The sentence-like pieces of a paragraph (src/03_stage2_chunk.py:97). -/
def sentencePieces (para : String) : List String :=
  sentenceGo para.toList.length para.toList []

/-- The greedy buffer loop for overlong paragraphs
(src/03_stage2_chunk.py:95-112), returning the flushed buffers in order:
a buffer is flushed when `cur + len(piece) + 1 > max_chars` and it is
non-empty (`cur` counts each buffered piece's length plus one), the piece is
then appended, and a non-empty final buffer is flushed at the end. -/
def packGo (maxChars : Nat) : List String → List String → Nat → List (List String)
  | [], buf, _ => if buf = [] then [] else [buf]
  | p :: ps, buf, cur =>
    if cur + p.length + 1 > maxChars ∧ buf ≠ [] then
      buf :: packGo maxChars ps [p] (p.length + 1)
    else
      packGo maxChars ps (buf ++ [p]) (cur + p.length + 1)

/-- Finish one flushed buffer into a chunk (src/03_stage2_chunk.py:99-102):
join with single spaces, rewrite wikilinks, strip, append one newline. -/
def finishChunk (pieces : List String) : String × List Link :=
  let (t, ls) := replace_wikilinks_and_collect (joinWith " " pieces)
  (pyTrim t ++ "\n", ls)

/-- Chunks produced from one paragraph (src/03_stage2_chunk.py:88-112): a
paragraph within `max_chars` is one chunk; an overlong one is split into
sentence pieces and greedily packed. -/
def paragraphChunks (maxChars : Nat) (para : String) : List (String × List Link) :=
  if para.length ≤ maxChars then
    [finishChunk [para]]
  else
    (packGo maxChars (sentencePieces para) [] 0).map finishChunk

/-- Chunk texts and link lists of one section (src/03_stage2_chunk.py:74-112):
normalize the section text, split into blank-line paragraphs, strip them and
drop the empty ones, then chunk each paragraph. -/
def sectionChunks (maxChars : Nat) (sectionRaw : String) : List (String × List Link) :=
  let normalized := normalize_markdown_light sectionRaw
  let paragraphsRaw := ((strSplitOn normalized "\n\n").map pyTrim).filter
    (fun p => p ≠ "")
  paragraphsRaw.flatMap (paragraphChunks maxChars)

/-- Document-level fields computed in stage 2 `main`
(src/03_stage2_chunk.py:63-67) and threaded into every chunk record. -/
structure DocFields where
  doc_id : String
  rel_path : String
  entry_date : Option String
  source_date : Option String
  source_hash : String
  embed_model : String
  embed_dim : Int
deriving DecidableEq, Repr

/-- `CHUNKER_VERSION` (src/03_stage2_chunk.py:18). -/
def CHUNKER_VERSION : String := "v0.1"

/-- Encode an optional date as the JSON value stage 2 writes. -/
def optStr : Option String → JVal
  | none => JVal.null
  | some s => JVal.s s

/-- One chunk record of stage 2 (src/03_stage2_chunk.py:114-137): the
chunk id is `doc_id::anchor::index`, the content hash is the digest of the
final chunk text (`sha256_text` is the injected `hashText`), and the metadata
dict is written in the source's literal order (its duplicated `source_date`
key collapses to the single binding the dict keeps). -/
def mkChunkRow (hashText : String → String) (d : DocFields)
    (anchor sectionTitle : String) (idx : Nat)
    (chunkText : String) (links : List Link) : Row :=
  let chunk_id := d.doc_id ++ "::" ++ anchor ++ "::" ++ toString idx
  { text := chunkText
    metadata :=
      [("doc_id", JVal.s d.doc_id),
       ("chunk_id", JVal.s chunk_id),
       ("chunk_anchor", JVal.s anchor),
       ("chunk_title", JVal.s sectionTitle),
       ("chunk_index", JVal.i idx),
       ("rel_path", JVal.s d.rel_path),
       ("entry_date", optStr d.entry_date),
       ("source_date", optStr d.source_date),
       ("source_hash", JVal.s d.source_hash),
       ("content_hash", JVal.s (hashText chunkText)),
       ("embed_model", JVal.s d.embed_model),
       ("embed_dim", JVal.i d.embed_dim),
       ("chunker_version", JVal.s CHUNKER_VERSION),
       ("out_links", JVal.linkList links)] }

/-- Rows of one section (src/03_stage2_chunk.py:74-138): enumerate the
section's chunks and assemble their records. -/
def sectionRows (hashText : String → String) (d : DocFields) (maxChars : Nat)
    (sec : String × String × String) : List Row :=
  (sectionChunks maxChars sec.2.2).enum.map (fun p =>
    mkChunkRow hashText d sec.1 sec.2.1 p.1 p.2.1 p.2.2)

/-- Segmentation plus identity assignment (src/03_stage2_chunk.py:69-138):
split the chunk input into sections and emit every section's chunk records in
order.  This is the boundary artifact fed to the Sync Planner. -/
def segmentAndIdentify (hashText : String → String) (d : DocFields)
    (maxChars : Nat) (chunkInput : String) : List Row :=
  (split_into_sections chunkInput).flatMap (sectionRows hashText d maxChars)

/-- The `^\d{4}-\d{2}-\d{2}` prefix test of `parse_date_field`
(src/common.py:105). -/
def datePrefixMatch (s : String) : Bool :=
  match s.toList with
  | a :: b :: c :: d :: '-' :: e :: f :: '-' :: g :: h :: _ =>
    a.isDigit && b.isDigit && c.isDigit && d.isDigit &&
      e.isDigit && f.isDigit && g.isDigit && h.isDigit
  | _ => false

/-- Python truthiness of the metadata values this pipeline handles. -/
def pyTruthy : JVal → Bool
  | JVal.s v => v ≠ ""
  | JVal.i n => n ≠ 0
  | JVal.null => false
  | JVal.strList xs => !xs.isEmpty
  | JVal.linkList xs => !xs.isEmpty

/-- Python `str()` of a metadata value (list renderings approximate CPython's
`repr`-based formatting; the pipeline only applies `str` to scalar values). -/
def pyStr : JVal → String
  | JVal.s v => v
  | JVal.i n => toString n
  | JVal.null => "None"
  | JVal.strList xs =>
    "[" ++ joinWith ", " (xs.map (fun x => "'" ++ x ++ "'")) ++ "]"
  | JVal.linkList _ => "[...]"

/-- `parse_date_field` (src/common.py:92): stringify and strip the value,
return `none` when blank, the 10-character prefix when it looks like a date,
else delegate to `datetime.fromisoformat` (injected as `isoParse`, returning
the already-formatted `YYYY-MM-DD` result or `none` on parse failure). -/
def parse_date_field (isoParse : String → Option String) (meta : Meta)
    (key : String) : Option String :=
  let raw := pyTrim (match metaGet meta key with
    | none => ""
    | some v => pyStr v)
  if raw = "" then none
  else if datePrefixMatch raw then some (strTake raw 10)
  else isoParse raw

/-- Stage 2 failure modes: the missing stage-1 file
(src/03_stage2_chunk.py:57), the unbound `body_md` name in the stage-0
fallback branch (src/03_stage2_chunk.py:61), and a malformed YAML block
raised by `parse_yaml_frontmatter` (src/common.py:46). -/
inductive Stage2Err where
  | stage1Missing
  | nameErrorBodyMd
  | yamlError (msg : String)
deriving DecidableEq, Repr

/-- Frontmatter handling at the top of stage 2 `main`
(src/03_stage2_chunk.py:51-52): strip the YAML block and parse it with
`parse_yaml_frontmatter` (src/common.py:46), whose `yaml.safe_load` and
dict checks are injected as `yamlParse`; a blank or absent block yields the
empty mapping, and a malformed block raises. -/
def stage2Frontmatter (yamlParse : String → Except String Meta)
    (rawText : String) : Except Stage2Err Meta :=
  match (strip_yaml_frontmatter rawText).2 with
  | none => Except.ok ([] : Meta)
  | some yb =>
    if pyTrim yb = "" then Except.ok ([] : Meta)
    else match yamlParse yb with
      | Except.ok m => Except.ok m
      | Except.error e => Except.error (Stage2Err.yamlError e)

/-- Stage 2 `main` from frontmatter stripping to the produced record list
(src/03_stage2_chunk.py:51-138), with the external pieces injected:
`yamlParse` models `yaml.safe_load` plus the dict checks of
`parse_yaml_frontmatter`, `isoParse` models `datetime.fromisoformat`,
`hashBytes`/`hashText` model the sha256 digests, and the stage-1 file is
modelled by its existence flag and content.  With `prefer_stage1` unset the
fallback branch evaluates `normalize_markdown_light(body_md)`, but `body_md`
is bound nowhere in `main` or its module (the frontmatter-stripped text is
bound to `body` on line 51), so CPython raises `NameError` there — before
`split_into_sections` runs and before any row is produced or written; the
embedding returns that error. -/
def stage2Run (yamlParse : String → Except String Meta)
    (isoParse : String → Option String)
    (hashBytes hashText : String → String)
    (prefer_stage1 : Bool) (stage1Exists : Bool) (stage1Text : String)
    (srcName : String) (rawText : String)
    (embed_model : String) (embed_dim : Int) (max_chars : Nat) :
    Except Stage2Err (List Row) := do
  let meta ← stage2Frontmatter yamlParse rawText
  let chunkInput ←
    if prefer_stage1 then
      if stage1Exists then Except.ok stage1Text
      else Except.error Stage2Err.stage1Missing
    else
      -- src/03_stage2_chunk.py:61 `chunk_input = normalize_markdown_light(body_md)`
      -- NameError: `body_md` is never bound (the stripped text is `body`).
      Except.error Stage2Err.nameErrorBodyMd
  let uuidStr := pyTrim (match metaGet meta "uuid" with
    | none => ""
    | some v => if pyTruthy v then pyStr v else "")
  let d : DocFields :=
    { doc_id := if uuidStr ≠ "" then uuidStr else strTake (hashBytes rawText) 24
      rel_path := "stage_0_raw/" ++ srcName
      entry_date := parse_date_field isoParse meta "journal_entry_date"
      source_date := parse_date_field isoParse meta "note_creation_date"
      source_hash := hashBytes rawText
      embed_model := embed_model
      embed_dim := embed_dim }
  Except.ok (segmentAndIdentify hashText d max_chars chunkInput)

/-! ### src/03_stage3_build_chroma.py -/

/-- Synchronization modes (src/03_stage3_build_chroma.py:92). -/
inductive SyncMode where
  | rebuild
  | append
  | upsert
deriving DecidableEq, Repr

/-- The run flags of stage 3 `main` that the reconciliation logic reads
(src/03_stage3_build_chroma.py:83-95).  The filesystem-only flags
(`persist_dir`, `reset_db`, `dry_run`) and the collection name only touch
external storage paths and are not part of the collection-state semantics
(`reset_db` deletes the persist directory that rebuild mode recreates
anyway). -/
structure Args3 where
  embed_model : String
  device : String
  batch_size : Nat
  mode : SyncMode
  skip_unchanged : Bool
deriving DecidableEq, Repr

/-- A stored record of the vector store: document text, optional metadata
dict, embedding vector. -/
structure StoredRec where
  doc : String
  meta : Option Meta
  emb : List Int
deriving DecidableEq, Repr

/-- The id-keyed record store of one collection.  Keys are the values passed
as Chroma ids; the gateway keeps them unique. -/
abbrev Store := List (JVal × StoredRec)

/-- A collection: its creation-time metadata mapping and its record store. -/
structure Collection where
  meta : List (String × String)
  store : Store
deriving DecidableEq, Repr

/-- Lookup in a collection-level (string-valued) metadata mapping. -/
def metaSGet (m : List (String × String)) (k : String) : Option String :=
  (List.find? (fun p => p.1 == k) m).map (fun p => p.2)

/-- `collection.get` by id: the first record stored under the id, if any. -/
def storeGet (s : Store) (k : JVal) : Option StoredRec :=
  (List.find? (fun p => p.1 == k) s).map (fun p => p.2)

/-- Overwrite-or-insert one id-keyed record (Chroma `upsert` semantics for a
single entry): replace the binding under the entry's id, or append a new
binding when the id is absent. -/
def storeUpsert1 : Store → (JVal × StoredRec) → Store
  | [], e => [e]
  | p :: s, e => if p.1 == e.1 then e :: s else p :: storeUpsert1 s e

/-- `collection.upsert` over a batch, entry by entry.  `collection.add`
(append and rebuild modes) is modelled by the same function: Chroma's `add`
raises on a pre-existing id, but rebuild mode starts from a freshly created
collection and append mode has already rejected every pre-existing id, and
within one run the batch ids are distinct after `VALIDATE`, so `add` never
meets an existing id on a reachable path. -/
def storeUpsertMany (s : Store) (es : List (JVal × StoredRec)) : Store :=
  es.foldl storeUpsert1 s

/-- Stage 3 failure modes, in the order `main` can raise them:
`KeyError` from the id comprehension (src/03_stage3_build_chroma.py:130),
`TypeError` from joining a non-string `heading_path` list
(src/03_stage3_build_chroma.py:137), the missing-metadata `ValueError`
(line 168), the duplicate-id `ValueError` (line 172), the fingerprint
mismatches (lines 238-247), the append duplicate report (line 253), and the
`ValueError` CPython's `range` raises for a zero step when `batch` is called
with `batch_size = 0` (line 59). -/
inductive Stage3Err where
  | keyErrorChunkId
  | headingPathTypeError
  | missingMeta (idxs : List Nat)
  | duplicateChunkId
  | embedModelMismatch
  | settingsHashMismatch
  | appendDuplicates (sample : List JVal)
  | zeroBatchSize
deriving DecidableEq, Repr

/-- `ids = [r["metadata"]["chunk_id"] for r in rows]`
(src/03_stage3_build_chroma.py:130): direct indexing raises `KeyError` at the
first row whose metadata lacks the key; a null value is kept as an id. -/
def extractIds : List Row → Except Stage3Err (List JVal)
  | [] => Except.ok []
  | r :: rs =>
    match metaGet r.metadata "chunk_id" with
    | none => Except.error Stage3Err.keyErrorChunkId
    | some v => (extractIds rs).map (fun l => v :: l)

/-- The `heading_path` string of one metadata dict
(src/03_stage3_build_chroma.py:135-139): a falsy value becomes the empty
list, a list of strings is joined with " > ", a non-string list makes the
join raise `TypeError` (`none`), and a truthy scalar is stringified. -/
def headingPathStr (m : Meta) : Option String :=
  match metaGet m "heading_path" with
  | none => some ""
  | some v =>
    if pyTruthy v then
      match v with
      | JVal.strList xs => some (joinWith " > " xs)
      | JVal.linkList _ => none
      | JVal.s x => some x
      | JVal.i n => some (toString n)
      | JVal.null => some ""
    else some ""

/-- `CHROMA_META_KEYS` (src/03_stage3_build_chroma.py:17). -/
def CHROMA_META_KEYS : List String :=
  ["doc_id", "chunk_id", "chunk_key", "chunk_hash", "chunk_anchor",
   "chunk_title", "heading_path_str", "chunk_index", "rel_path",
   "source_uri", "cleaned_text", "entry_date", "source_date", "source_hash",
   "content_hash", "embed_model", "embed_dim", "chunker_version", "doc_type",
   "sensitivity", "folder"]

/-- The flattened metadata written to the store for one row
(src/03_stage3_build_chroma.py:140-142): the `CHROMA_META_KEYS` whose value
is present and non-null, in key-list order, plus the `heading_path_str`
binding. -/
def projMeta (m : Meta) (hps : String) : Meta :=
  (CHROMA_META_KEYS.filterMap (fun k =>
    if k = "heading_path_str" then none
    else match metaGet m k with
      | none => none
      | some v => if v = JVal.null then none else some (k, v))) ++
    [("heading_path_str", JVal.s hps)]

/-- `metas` construction (src/03_stage3_build_chroma.py:132-142), raising at
the first row whose `heading_path` join fails. -/
def buildMetas : List Row → Except Stage3Err (List Meta)
  | [] => Except.ok []
  | r :: rs =>
    match headingPathStr r.metadata with
    | none => Except.error Stage3Err.headingPathTypeError
    | some hps => (buildMetas rs).map (fun l => projMeta r.metadata hps :: l)

/-- `required_keys` of the stage 3 validation
(src/03_stage3_build_chroma.py:147). -/
def requiredKeys3 : List String :=
  ["chunk_id", "chunk_key", "chunk_hash", "source_uri", "chunk_index",
   "cleaned_text"]

/-- The per-row missing test (src/03_stage3_build_chroma.py:149-153): some
required key is absent, null, or the empty string. -/
def rowMissingSix (m : Meta) : Bool :=
  requiredKeys3.any (fun k =>
    match metaGet m k with
    | none => true
    | some v => v == JVal.null || v == JVal.s "")

/-- The validation loop (src/03_stage3_build_chroma.py:144-166): walk the
rows with their indices, recompute the `heading_path` join (its `TypeError`
is unreachable after `buildMetas` has already succeeded; the
`heading_path_str is None` test on line 161 can never fire), collect the
indices of rows with missing metadata, and stop once five are collected. -/
def collectMissingGo : Nat → List Nat → List Row → Except Stage3Err (List Nat)
  | _, acc, [] => Except.ok acc.reverse
  | idx, acc, r :: rs =>
    match headingPathStr r.metadata with
    | none => Except.error Stage3Err.headingPathTypeError
    | some _ =>
      if rowMissingSix r.metadata then
        let acc' := idx :: acc
        if acc'.length ≥ 5 then Except.ok acc'.reverse
        else collectMissingGo (idx + 1) acc' rs
      else collectMissingGo (idx + 1) acc rs

/-- The indices reported by the missing-metadata check. -/
def collectMissing (rows : List Row) : Except Stage3Err (List Nat) :=
  collectMissingGo 0 [] rows

/-- Lines 129-172 of stage 3 `main`: extract the id list, build the
flattened metadata list, reject on missing required metadata, and reject on
duplicate ids (`len(ids) != len(set(ids))` is the dedup-length test).
Success yields the parallel id and metadata lists. -/
def stage3Prepare (rows : List Row) : Except Stage3Err (List JVal × List Meta) := do
  let ids ← extractIds rows
  let metas ← buildMetas rows
  let missing ← collectMissing rows
  if missing ≠ [] then
    Except.error (Stage3Err.missingMeta missing)
  else if ids.length ≠ ids.dedup.length then
    Except.error Stage3Err.duplicateChunkId
  else
    Except.ok (ids, metas)

/-- The metadata stamped on a freshly created collection
(src/03_stage3_build_chroma.py:208-217 and 222-231). -/
def stampMeta (args : Args3) (settingsHash : String) : List (String × String) :=
  [("pipeline_version", "v1"),
   ("stage3_version", "v0.1"),
   ("embed_model", args.embed_model),
   ("device", args.device),
   ("settings_hash", settingsHash)]

/-- Python `coll_value and coll_value != current`: the stored value is truthy
and differs. -/
def truthyNe (stored : Option String) (current : String) : Bool :=
  match stored with
  | none => false
  | some v => v ≠ "" && v ≠ current

/-- ENSURE_COLLECTION (src/03_stage3_build_chroma.py:202-247): rebuild drops
any existing collection and recreates it with a fresh stamp; append/upsert
reuse an existing collection only when its stored `embed_model` and
`settings_hash`, where truthy, match the current run, and create a stamped
collection when none exists. -/
def stage3Ensure (args : Args3) (settingsHash : String)
    (client : Option Collection) : Except Stage3Err Collection :=
  match args.mode with
  | SyncMode.rebuild => Except.ok ⟨stampMeta args settingsHash, []⟩
  | _ =>
    match client with
    | none => Except.ok ⟨stampMeta args settingsHash, []⟩
    | some c =>
      if truthyNe (metaSGet c.meta "embed_model") args.embed_model then
        Except.error Stage3Err.embedModelMismatch
      else if truthyNe (metaSGet c.meta "settings_hash") settingsHash then
        Except.error Stage3Err.settingsHashMismatch
      else
        Except.ok c

/-- Split a list into consecutive batches of `n` (src/03_stage3_build_chroma.py:58).
The fuel is instantiated with the list length; with `n > 0` each step
consumes at least one element, so the fuel never runs out.  `n = 0` makes
CPython's `range` raise and is rejected by the callers below. -/
def batchListGo (n : Nat) : Nat → List α → List (List α)
  | _, [] => []
  | 0, _ => []
  | fuel + 1, x :: xs => (x :: xs).take n :: batchListGo n fuel ((x :: xs).drop n)

/-- `batch(iterable, n)` (src/03_stage3_build_chroma.py:58). -/
def batchList (n : Nat) (xs : List α) : List (List α) :=
  batchListGo n xs.length xs

/-- `find_existing_ids` (src/03_stage3_build_chroma.py:61): query the store
batch by batch and collect the ids that already exist, in query order (the
gateway returns the queried ids that are present and omits unknown ids). -/
def find_existing_ids (s : Store) (batchSize : Nat) (ids : List JVal) : List JVal :=
  (batchList batchSize ids).flatMap (fun b =>
    b.filter (fun i => (storeGet s i).isSome))

/-- `get_existing_meta_by_id` (src/03_stage3_build_chroma.py:72): mapping
from each queried id that exists to its stored metadata, keeping only
records whose metadata is present. -/
def get_existing_meta_by_id (s : Store) (ids : List JVal) : List (JVal × Meta) :=
  ids.filterMap (fun i =>
    match storeGet s i with
    | some r => r.meta.map (fun m => (i, m))
    | none => none)

/-- One prepared chunk of the write loop: its id, document text and
flattened metadata (the parallel `ids`/`docs`/`metas` lists zipped). -/
structure Item where
  cid : JVal
  doc : String
  meta : Meta
deriving DecidableEq, Repr

/-- The stored record written for one chunk: its text, its flattened
metadata, and the embedding of its text (`model.encode` is injected as the
per-text function `encode`; vectors are already normalized by the model
call). -/
def mkRec (encode : String → List Int) (it : Item) : StoredRec :=
  { doc := it.doc, meta := some it.meta, emb := encode it.doc }

/-- The skip test of upsert mode with `skip_unchanged`
(src/03_stage3_build_chroma.py:270-273): the previously stored metadata for
the id exists in the fetched mapping, is a non-empty (truthy) dict, and its
`chunk_hash` equals the incoming metadata's `chunk_hash`. -/
def skipAgainst (em : List (JVal × Meta)) (it : Item) : Bool :=
  match (List.find? (fun p => p.1 == it.cid) em).map (fun p => p.2) with
  | some prev => !prev.isEmpty && (metaGet prev "chunk_hash" == metaGet it.meta "chunk_hash")
  | none => false

/-- The embed-and-write loop (src/03_stage3_build_chroma.py:258-321),
returning the final store and the ids written, in write order.  In upsert
mode with `skip_unchanged` each batch filters out the unchanged chunks
before embedding and skips the store call when nothing is kept (`continue`);
otherwise the whole batch is embedded and written (`collection.upsert` for
upsert mode, `collection.add` for rebuild/append — see `storeUpsertMany`). -/
def runBatches (args : Args3) (encode : String → List Int) :
    Store → List (List Item) → Store × List JVal
  | s, [] => (s, [])
  | s, b :: bs =>
    if args.mode = SyncMode.upsert ∧ args.skip_unchanged then
      let em := get_existing_meta_by_id s (b.map (fun it => it.cid))
      let keep := b.filter (fun it => !skipAgainst em it)
      if keep = [] then runBatches args encode s bs
      else
        let s' := storeUpsertMany s (keep.map (fun it => (it.cid, mkRec encode it)))
        let r := runBatches args encode s' bs
        (r.1, keep.map (fun it => it.cid) ++ r.2)
    else
      let s' := storeUpsertMany s (b.map (fun it => (it.cid, mkRec encode it)))
      let r := runBatches args encode s' bs
      (r.1, b.map (fun it => it.cid) ++ r.2)

/-- The run manifest (src/03_stage3_build_chroma.py:328-333): settings hash
and the counts of chunks considered and written. -/
structure Manifest where
  settings_hash : String
  chunks : Nat
  added : Nat
deriving DecidableEq, Repr

/-- A completed stage 3 run: the resulting collection, the ids written this
run, and the manifest. -/
structure RunResult where
  coll : Collection
  writtenIds : List JVal
  manifest : Manifest
deriving DecidableEq, Repr

/-- Zip the parallel id/doc/meta lists into items. -/
def mkItems : List JVal → List String → List Meta → List Item
  | i :: is, d :: ds, m :: ms => ⟨i, d, m⟩ :: mkItems is ds ms
  | _, _, _ => []

/-- The append-mode duplicate guard (src/03_stage3_build_chroma.py:249-255):
look up every batch id; any existing id rejects the whole run, reporting the
first ten offending ids. -/
def stage3AppendCheck (args : Args3) (store : Store) (ids : List JVal) :
    Except Stage3Err Unit :=
  if args.mode = SyncMode.append then
    if min args.batch_size 256 = 0 then Except.error Stage3Err.zeroBatchSize
    else
      let existing := find_existing_ids store (min args.batch_size 256) ids
      if existing = [] then Except.ok ()
      else Except.error (Stage3Err.appendDuplicates (existing.take 10))
  else Except.ok ()

/-- Stage 3 `main` (src/03_stage3_build_chroma.py:96-337) as a state
transformer on the client's collection, with the external pieces injected:
`settingsHash` is the `stable_settings_hash` digest of the run settings
(an injected sha256 of the sorted settings JSON), `encode` is the embedding
model.  Filesystem effects (persist directory reset, manifest file) and
`dry_run` early exit are outside the collection-state semantics; an
`Except.error` result models an exception raised before or instead of the
remaining effects, so nothing is embedded or written for that run. -/
def stage3Run (args : Args3) (settingsHash : String)
    (encode : String → List Int) (rows : List Row)
    (client : Option Collection) : Except Stage3Err RunResult := do
  let (ids, metas) ← stage3Prepare rows
  let coll ← stage3Ensure args settingsHash client
  stage3AppendCheck args coll.store ids
  if args.batch_size = 0 then
    Except.error Stage3Err.zeroBatchSize
  else
    let items := mkItems ids (rows.map (fun r => r.text)) metas
    let r := runBatches args encode coll.store (batchList args.batch_size items)
    Except.ok
      { coll := { coll with store := r.1 }
        writtenIds := r.2
        manifest :=
          { settings_hash := settingsHash
            chunks := rows.length
            added := r.2.length } }

/-! ### Claim-side definitions and concrete fixtures -/

/-- The `chunk_id` value of a row (null when absent), used to state
uniqueness of ids across a batch. -/
def chunkIdOf (r : Row) : JVal :=
  (metaGet r.metadata "chunk_id").getD JVal.null

/-- The skip condition of upsert mode with `skip_unchanged`, phrased against
a fixed store: the store already holds a record under the chunk's id whose
metadata is present, non-empty, and carries the same `chunk_hash` as the
incoming chunk's flattened metadata.  `runBatches` is proved to realize
exactly this test against the run's initial store. -/
def skipB (s : Store) (it : Item) : Bool :=
  match (storeGet s it.cid).bind StoredRec.meta with
  | some prev =>
    !prev.isEmpty && (metaGet prev "chunk_hash" == metaGet it.meta "chunk_hash")
  | none => false

/-- The required fields of the §6 chunk-batch schema, as the spec's
VALIDATE claim lists them. -/
def requiredKeys6 : List String :=
  ["doc_id", "chunk_id", "chunk_anchor", "chunk_title", "chunk_index",
   "rel_path", "source_hash", "content_hash", "embed_model", "embed_dim",
   "chunker_version", "out_links"]

/-- "Populated and non-empty" in the spec's sense: the key is present and
its value is neither null, the empty string, nor an empty list (any integer,
including a zero index, is populated). -/
def fieldPopulated (m : Meta) (k : String) : Bool :=
  match metaGet m k with
  | none => false
  | some JVal.null => false
  | some (JVal.s v) => v ≠ ""
  | some (JVal.i _) => true
  | some (JVal.strList xs) => !xs.isEmpty
  | some (JVal.linkList xs) => !xs.isEmpty

/-- A batch satisfying the §6 side of the VALIDATE claim: every record has
all twelve required fields populated and non-empty. -/
def batch6Ok (rows : List Row) : Bool :=
  rows.all (fun r => requiredKeys6.all (fun k => fieldPopulated r.metadata k))

/-- The packing loop as the claim words it: flush exactly when appending the
next piece to the joined buffer would exceed `max_chars` and the buffer is
non-empty.  Stated from the spec for comparison with `packGo`, which charges
one separator per buffered piece (`cur + len(piece) + 1`) and therefore also
flushes when the joined text would only reach `max_chars` exactly or when
original separators were wider than one character. -/
def packGoClaim (maxChars : Nat) : List String → List String → List (List String)
  | [], buf => if buf = [] then [] else [buf]
  | p :: ps, buf =>
    if buf ≠ [] ∧ (joinWith " " (buf ++ [p])).length > maxChars then
      buf :: packGoClaim maxChars ps [p]
    else
      packGoClaim maxChars ps (buf ++ [p])

/-- Per-paragraph chunking under the claim's flush rule. -/
def paragraphChunksClaim (maxChars : Nat) (para : String) : List (String × List Link) :=
  if para.length ≤ maxChars then
    [finishChunk [para]]
  else
    (packGoClaim maxChars (sentencePieces para) []).map finishChunk

/-- A constant digest standing in for sha256 in concrete runs (any injected
digest works for the claims evaluated here). -/
def hashH : String → String := fun _ => "H"

/-- A constant embedding standing in for the model in concrete runs. -/
def encode1 : String → List Int := fun _ => [1]

/-- No metadata date field parses via `datetime.fromisoformat` in the
concrete runs below. -/
def noIso : String → Option String := fun _ => none

/-- Document fields for the concrete stage 2 runs. -/
def d6 : DocFields :=
  { doc_id := "d", rel_path := "stage_0_raw/n.md", entry_date := none,
    source_date := none, source_hash := "S", embed_model := "m",
    embed_dim := 384 }

/-- A one-chunk batch actually produced by the Segmenter/Identity stage,
with every §6 required field populated and non-empty (the `see [[T]]` body
gives it a non-empty `out_links`). -/
def c1Batch : List Row :=
  segmentAndIdentify hashH d6 2500 "## A\nsee [[T]]\n"

/-- A document whose two same-titled H2 sections slugify to the same anchor,
so their single chunks both get index 0 and collide on `chunk_id`. -/
def c4Doc : String := "## A\nx\n## A\ny\n"

/-- Parsed frontmatter of the concrete stage 2 run: a `uuid` key. -/
def c4Yaml : String → Except String Meta :=
  fun _ => Except.ok [("uuid", JVal.s "doc")]

/-- Raw text of the concrete stage 2 run, with a `uuid` frontmatter block. -/
def c4Raw : String := "---\nuuid: doc\n---\nbody\n"

/-- The duplicate-id batch the identity stage emits for `c4Doc`. -/
def c4Rows : List Row :=
  segmentAndIdentify hashH
    { d6 with doc_id := "doc", source_hash := "R" } 2500 c4Doc

/-- Chunk records in the stage 3 schema (the fields its validation
requires), used by the concrete synchronization runs. -/
def rowA : Row :=
  { text := "x\n"
    metadata :=
      [("chunk_id", JVal.s "c1"), ("chunk_key", JVal.s "k1"),
       ("chunk_hash", JVal.s "h1"), ("source_uri", JVal.s "u1"),
       ("chunk_index", JVal.i 0), ("cleaned_text", JVal.s "x")] }

/-- Second record of the concrete batch. -/
def rowB : Row :=
  { text := "y\n"
    metadata :=
      [("chunk_id", JVal.s "c2"), ("chunk_key", JVal.s "k2"),
       ("chunk_hash", JVal.s "h2"), ("source_uri", JVal.s "u2"),
       ("chunk_index", JVal.i 1), ("cleaned_text", JVal.s "y")] }

/-- Upsert-mode flags with change skipping. -/
def argsU : Args3 :=
  { embed_model := "m", device := "cpu", batch_size := 32,
    mode := SyncMode.upsert, skip_unchanged := true }

/-- Append-mode flags. -/
def argsApp : Args3 :=
  { embed_model := "m", device := "cpu", batch_size := 32,
    mode := SyncMode.append, skip_unchanged := false }

/-- A collection already holding `rowA`'s id with the same stored
`chunk_hash` (so upsert with change skipping must skip `c1` and write
`c2`). -/
def c2Coll : Collection :=
  ⟨stampMeta argsU "hsh",
   [(JVal.s "c1", ⟨"old\n", some [("chunk_hash", JVal.s "h1")], [0]⟩)]⟩

/-- A collection already holding `rowA`'s id, for the append-mode
rejection. -/
def c8Coll : Collection :=
  ⟨stampMeta argsApp "hsh",
   [(JVal.s "c1", ⟨"old\n", some [("chunk_hash", JVal.s "h1")], [0]⟩)]⟩

/-- A collection stamped with a different model and fingerprint than the
current run, for the fingerprint guard. -/
def c9Coll : Collection :=
  ⟨[("embed_model", "m0"), ("settings_hash", "h0")], []⟩

/-- The two-record batch of the concrete synchronization runs. -/
def rowsAB : List Row := [rowA, rowB]

/-- Its `chunk_id` values as VALIDATE extracts them. -/
def idsAB : List JVal := [JVal.s "c1", JVal.s "c2"]

/-- Its flattened metadata mappings as stage 3 builds them. -/
def metasAB : List Meta :=
  [[("chunk_id", JVal.s "c1"), ("chunk_key", JVal.s "k1"),
    ("chunk_hash", JVal.s "h1"), ("chunk_index", JVal.i 0),
    ("source_uri", JVal.s "u1"), ("cleaned_text", JVal.s "x"),
    ("heading_path_str", JVal.s "")],
   [("chunk_id", JVal.s "c2"), ("chunk_key", JVal.s "k2"),
    ("chunk_hash", JVal.s "h2"), ("chunk_index", JVal.i 1),
    ("source_uri", JVal.s "u2"), ("cleaned_text", JVal.s "y"),
    ("heading_path_str", JVal.s "")]]


/-! ### Lemmas about the store and the gateway -/

/-- Reading the id just upserted returns the new record. -/
theorem storeGet_upsert1_self (s : Store) (e : JVal × StoredRec) :
    storeGet (storeUpsert1 s e) e.1 = some e.2 := by
  induction s with
  | nil => simp [storeUpsert1, storeGet]
  | cons p s ih =>
    by_cases hp : p.1 == e.1
    · simp [storeUpsert1, hp, storeGet]
    · simp only [storeUpsert1, hp, if_false]
      simpa [storeGet, List.find?_cons, hp] using ih

/-- Upserting one entry leaves every other id unchanged. -/
theorem storeGet_upsert1_ne (s : Store) (e : JVal × StoredRec) (k : JVal)
    (hk : k ≠ e.1) :
    storeGet (storeUpsert1 s e) k = storeGet s k := by
  induction s with
  | nil =>
    have : (e.1 == k) = false := by
      simp only [beq_eq_false_iff_ne, ne_eq]
      exact fun hh => hk hh.symm
    simp [storeUpsert1, storeGet, this]
  | cons p s ih =>
    by_cases hp : p.1 == e.1
    · have hp' : p.1 = e.1 := by simpa using hp
      have hpk : (p.1 == k) = false := by
        simp only [beq_eq_false_iff_ne, ne_eq, hp']
        exact fun hh => hk hh.symm
      have hek : (e.1 == k) = false := by
        simp only [beq_eq_false_iff_ne, ne_eq]
        exact fun hh => hk hh.symm
      simp [storeUpsert1, hp, storeGet, List.find?_cons, hpk, hek]
    · simp only [storeUpsert1, hp, if_false]
      by_cases hpk : p.1 == k
      · simp [storeGet, List.find?_cons, hpk]
      · simpa [storeGet, List.find?_cons, hpk] using ih

/-- Upserting a batch whose keys avoid `k` leaves `k` unchanged. -/
theorem storeGet_upsertMany_not_mem (es : List (JVal × StoredRec)) :
    ∀ (s : Store) (k : JVal), k ∉ es.map Prod.fst →
      storeGet (storeUpsertMany s es) k = storeGet s k := by
  induction es with
  | nil => intro s k _; rfl
  | cons e es ih =>
    intro s k hk
    simp only [List.map_cons, List.mem_cons, not_or] at hk
    calc storeGet (storeUpsertMany (storeUpsert1 s e) es) k
        = storeGet (storeUpsert1 s e) k := ih _ _ hk.2
      _ = storeGet s k := storeGet_upsert1_ne s e k hk.1

/-- Upserting a batch with distinct keys stores each entry under its key. -/
theorem storeGet_upsertMany_mem (es : List (JVal × StoredRec)) :
    ∀ (s : Store) (k : JVal) (v : StoredRec),
      (es.map Prod.fst).Nodup → (k, v) ∈ es →
      storeGet (storeUpsertMany s es) k = some v := by
  induction es with
  | nil => intro s k v _ h; cases h
  | cons e es ih =>
    intro s k v hnd hmem
    simp only [List.map_cons, List.nodup_cons] at hnd
    rcases List.mem_cons.mp hmem with heq | hmem'
    · subst heq
      have : k ∉ es.map Prod.fst := hnd.1
      calc storeGet (storeUpsertMany (storeUpsert1 s (k, v)) es) k
          = storeGet (storeUpsert1 s (k, v)) k :=
            storeGet_upsertMany_not_mem es _ k this
        _ = some v := storeGet_upsert1_self s (k, v)
    · exact ih _ _ _ hnd.2 hmem'

/-- When the store has no metadata-bearing record under `cid`, the fetched
mapping has no entry for `cid` either. -/
theorem getExisting_find_none (s : Store) (cid : JVal)
    (habs : (storeGet s cid).bind StoredRec.meta = none) :
    ∀ ids : List JVal,
      List.find? (fun p => p.1 == cid) (get_existing_meta_by_id s ids) = none := by
  intro ids
  induction ids with
  | nil => rfl
  | cons j js ih =>
    unfold get_existing_meta_by_id at *
    by_cases hji : j = cid
    · subst hji
      cases hg : storeGet s j with
      | none => simpa [List.filterMap_cons, hg] using ih
      | some r =>
        cases hm : r.meta with
        | none => simpa [List.filterMap_cons, hg, hm] using ih
        | some m => simp [hg, hm] at habs
    · cases hg : storeGet s j with
      | none => simpa [List.filterMap_cons, hg] using ih
      | some r =>
        cases hm : r.meta with
        | none => simpa [List.filterMap_cons, hg, hm] using ih
        | some m =>
          have hb : (j == cid) = false := by simpa using hji
          simpa [List.filterMap_cons, hg, hm, List.find?_cons, hb] using ih

/-- When the queried ids contain `cid`, looking `cid` up in the fetched
id-to-metadata mapping agrees with reading the store directly. -/
theorem getExisting_find_eq (s : Store) (ids : List JVal) (cid : JVal)
    (h : cid ∈ ids) :
    (List.find? (fun p => p.1 == cid) (get_existing_meta_by_id s ids)).map
        (fun p => p.2) =
      (storeGet s cid).bind StoredRec.meta := by
  induction ids with
  | nil => cases h
  | cons i is ih =>
    by_cases hic : i = cid
    · subst hic
      cases hg : storeGet s i with
      | none =>
        rw [getExisting_find_none s i (by simp [hg]) (i :: is)]
        simp [hg]
      | some r =>
        cases hm : r.meta with
        | none =>
          rw [getExisting_find_none s i (by simp [hg, hm]) (i :: is)]
          simp [hg, hm]
        | some m =>
          simp [get_existing_meta_by_id, List.filterMap_cons, hg, hm,
            List.find?_cons]
    · have h' : cid ∈ is := by
        rcases List.mem_cons.mp h with h0 | h1
        · exact absurd h0.symm hic
        · exact h1
      cases hg : storeGet s i with
      | none =>
        simpa [get_existing_meta_by_id, List.filterMap_cons, hg] using ih h'
      | some r =>
        cases hm : r.meta with
        | none =>
          simpa [get_existing_meta_by_id, List.filterMap_cons, hg, hm] using ih h'
        | some m =>
          have hb : (i == cid) = false := by simpa using hic
          simpa [get_existing_meta_by_id, List.filterMap_cons, hg, hm,
            List.find?_cons, hb] using ih h'

/-- Against the fetched mapping of a batch containing the chunk, the skip
test is exactly the store-level skip condition. -/
theorem skipAgainst_eq_skipB (s : Store) (b : List Item) (it : Item)
    (h : it ∈ b) :
    skipAgainst (get_existing_meta_by_id s (b.map (fun x => x.cid))) it =
      skipB s it := by
  have hmem : it.cid ∈ b.map (fun x => x.cid) := List.mem_map_of_mem _ h
  unfold skipAgainst skipB
  rw [getExisting_find_eq s _ it.cid hmem]

/-- The skip condition only reads the store at the chunk's id. -/
theorem skipB_congr (s s0 : Store) (it : Item)
    (h : storeGet s it.cid = storeGet s0 it.cid) :
    skipB s it = skipB s0 it := by
  unfold skipB
  rw [h]

/-- With a positive batch size and enough fuel, concatenating the batches
recovers the list. -/
theorem batchListGo_flatten (n : Nat) (hn : 0 < n) :
    ∀ (fuel : Nat) (xs : List α), xs.length ≤ fuel →
      (batchListGo n fuel xs).flatten = xs := by
  intro fuel
  induction fuel with
  | zero =>
    intro xs hl
    have : xs = [] := List.eq_nil_of_length_eq_zero (Nat.le_zero.mp hl)
    subst this
    rfl
  | succ fuel ih =>
    intro xs hl
    cases xs with
    | nil => rfl
    | cons x xs' =>
      simp only [batchListGo, List.flatten_cons]
      rw [ih ((x :: xs').drop n) ?_]
      · exact List.take_append_drop n (x :: xs')
      · have hd : ((x :: xs').drop n).length = (x :: xs').length - n := by simp
        have hlen : (x :: xs').length = xs'.length + 1 := by simp
        omega

/-- `batch` partitions its input: the concatenation of the batches is the
input list (positive batch size). -/
theorem batchList_flatten (n : Nat) (hn : 0 < n) (xs : List α) :
    (batchList n xs).flatten = xs :=
  batchListGo_flatten n hn xs.length xs (Nat.le_refl _)

/-- Filtering batch by batch is filtering the concatenation. -/
theorem flatMap_filter_eq (p : α → Bool) :
    ∀ bs : List (List α),
      bs.flatMap (fun b => b.filter p) = bs.flatten.filter p := by
  intro bs
  induction bs with
  | nil => rfl
  | cons b bs ih => simp [List.flatMap_cons, List.flatten_cons, List.filter_append, ih]

/-- `find_existing_ids` returns exactly the queried ids present in the
store, in query order (positive batch size). -/
theorem find_existing_ids_eq_filter (s : Store) (bsz : Nat) (hb : 0 < bsz)
    (ids : List JVal) :
    find_existing_ids s bsz ids =
      ids.filter (fun i => (storeGet s i).isSome) := by
  unfold find_existing_ids
  rw [flatMap_filter_eq, batchList_flatten bsz hb]

/-- Zipping the parallel lists keeps the id list as the items' ids. -/
theorem mkItems_map_cid :
    ∀ (is : List JVal) (ds : List String) (ms : List Meta),
      is.length = ds.length → ds.length = ms.length →
      (mkItems is ds ms).map Item.cid = is := by
  intro is
  induction is with
  | nil =>
    intro ds ms h1 _
    cases ds with
    | nil => rfl
    | cons d ds => simp at h1
  | cons i is ih =>
    intro ds ms h1 h2
    cases ds with
    | nil => simp at h1
    | cons d ds =>
      cases ms with
      | nil => simp at h2
      | cons m ms =>
        simp only [mkItems, List.map_cons]
        rw [ih ds ms (by simpa using h1) (by simpa using h2)]

/-- The write loop in upsert mode with change skipping, characterized against
the initial store: across all batches, exactly the chunks failing the skip
condition are written (in order); ids outside the written set keep their
records; every written chunk ends stored as its fresh record.  The ids of
one run are distinct (guaranteed by VALIDATE), so a later batch's lookups
are unaffected by earlier writes. -/
theorem runBatches_upsert_spec (args : Args3) (encode : String → List Int)
    (hm : args.mode = SyncMode.upsert) (hs : args.skip_unchanged = true) :
    ∀ (bs : List (List Item)) (s s0 : Store),
      (bs.flatten.map Item.cid).Nodup →
      (∀ it ∈ bs.flatten, storeGet s it.cid = storeGet s0 it.cid) →
      (runBatches args encode s bs).2 =
          (bs.flatten.filter (fun it => !skipB s0 it)).map Item.cid
        ∧ (∀ k, k ∉ (bs.flatten.filter (fun it => !skipB s0 it)).map Item.cid →
            storeGet (runBatches args encode s bs).1 k = storeGet s k)
        ∧ (∀ it ∈ bs.flatten, skipB s0 it = false →
            storeGet (runBatches args encode s bs).1 it.cid =
              some (mkRec encode it)) := by
  intro bs
  induction bs with
  | nil =>
    intro s s0 _ _
    refine ⟨rfl, fun k _ => rfl, fun it hit => absurd hit (by simp)⟩
  | cons b bs ih =>
    intro s s0 hnd hagree
    have hcond : args.mode = SyncMode.upsert ∧ args.skip_unchanged = true :=
      ⟨hm, hs⟩
    have hflat : (b :: bs).flatten = b ++ bs.flatten := by simp
    rw [hflat] at hnd hagree
    rw [List.map_append, List.nodup_append] at hnd
    obtain ⟨hndb, hndbs, hdisj⟩ := hnd
    have hagb : ∀ it ∈ b, storeGet s it.cid = storeGet s0 it.cid :=
      fun it hit => hagree it (List.mem_append_left _ hit)
    have hagbs : ∀ it ∈ bs.flatten, storeGet s it.cid = storeGet s0 it.cid :=
      fun it hit => hagree it (List.mem_append_right _ hit)
    have hkeep :
        b.filter (fun it =>
            !skipAgainst (get_existing_meta_by_id s (b.map (fun x => x.cid))) it) =
          b.filter (fun it => !skipB s0 it) := by
      apply List.filter_congr
      intro it hit
      rw [skipAgainst_eq_skipB s b it hit, skipB_congr s s0 it (hagb it hit)]
    by_cases hk : b.filter (fun it => !skipB s0 it) = []
    · have hrun :
          runBatches args encode s (b :: bs) = runBatches args encode s bs := by
        simp only [runBatches]
        rw [if_pos hcond, hkeep, if_pos hk]
      have hall : ∀ it ∈ b, skipB s0 it = true := by
        intro it hit
        have := List.filter_eq_nil_iff.mp hk it hit
        simpa using this
      obtain ⟨ihw, ihu, ihl⟩ := ih s s0 hndbs hagbs
      rw [hrun, hflat]
      refine ⟨?_, ?_, ?_⟩
      · rw [List.filter_append, hk, List.nil_append]
        exact ihw
      · intro k hkmem
        rw [List.filter_append, hk, List.nil_append] at hkmem
        exact ihu k hkmem
      · intro it hit hskip
        rcases List.mem_append.mp hit with hb' | hbs'
        · rw [hall it hb'] at hskip
          cases hskip
        · exact ihl it hbs' hskip
    · set keep := b.filter (fun it => !skipB s0 it) with hkeepdef
      set entries := keep.map (fun it => (it.cid, mkRec encode it)) with hentries
      have hrun :
          runBatches args encode s (b :: bs) =
            ((runBatches args encode (storeUpsertMany s entries) bs).1,
              keep.map Item.cid ++
                (runBatches args encode (storeUpsertMany s entries) bs).2) := by
        simp only [runBatches]
        rw [if_pos hcond, hkeep, if_neg hk]
      have hkeys : entries.map Prod.fst = keep.map Item.cid := by
        simp [hentries, Function.comp]
      have hkeepsub :
          List.Sublist (keep.map Item.cid) (b.map Item.cid) :=
        (List.filter_sublist b).map _
      have hkeepnd : (keep.map Item.cid).Nodup := hndb.sublist hkeepsub
      have hnotin : ∀ it ∈ bs.flatten, it.cid ∉ entries.map Prod.fst := by
        intro it hit hmem
        rw [hkeys] at hmem
        have hmem' : it.cid ∈ b.map (fun x => x.cid) :=
          hkeepsub.subset hmem
        exact hdisj hmem' (List.mem_map_of_mem _ hit)
      have hagbs' : ∀ it ∈ bs.flatten,
          storeGet (storeUpsertMany s entries) it.cid = storeGet s0 it.cid := by
        intro it hit
        rw [storeGet_upsertMany_not_mem entries _ _ (hnotin it hit)]
        exact hagbs it hit
      obtain ⟨ihw, ihu, ihl⟩ :=
        ih (storeUpsertMany s entries) s0 hndbs hagbs'
      rw [hrun, hflat]
      refine ⟨?_, ?_, ?_⟩
      · rw [List.filter_append, List.map_append, ihw]
      · intro k hkmem
        rw [List.filter_append, List.map_append, List.mem_append, not_or]
          at hkmem
        obtain ⟨hk1, hk2⟩ := hkmem
        rw [ihu k hk2]
        apply storeGet_upsertMany_not_mem
        rw [hkeys]
        exact hk1
      · intro it hit hskip
        rcases List.mem_append.mp hit with hb' | hbs'
        · have hitkeep : it ∈ keep := by
            rw [hkeepdef]
            exact List.mem_filter.mpr ⟨hb', by simp [hskip]⟩
          have hcid_notin :
              it.cid ∉ (bs.flatten.filter (fun x => !skipB s0 x)).map Item.cid := by
            intro hmem
            have : it.cid ∈ bs.flatten.map (fun x => x.cid) := by
              have hsub :
                List.Sublist
                  ((bs.flatten.filter (fun x => !skipB s0 x)).map Item.cid)
                  (bs.flatten.map Item.cid) :=
              (List.filter_sublist _).map _
              exact hsub.subset hmem
            exact hdisj (List.mem_map_of_mem _ hb') this
          rw [ihu it.cid hcid_notin]
          apply storeGet_upsertMany_mem
          · rw [hkeys]; exact hkeepnd
          · rw [hentries]
            exact List.mem_map_of_mem _ hitkeep
        · exact ihl it hbs' hskip

/-- The write loop outside the skip-unchanged upsert path (append and
rebuild `collection.add`, upsert without skipping): every chunk is written,
other ids are untouched, and each chunk ends stored as its fresh record. -/
theorem runBatches_add_spec (args : Args3) (encode : String → List Int)
    (hm : ¬(args.mode = SyncMode.upsert ∧ args.skip_unchanged = true)) :
    ∀ (bs : List (List Item)) (s : Store),
      (bs.flatten.map Item.cid).Nodup →
      (runBatches args encode s bs).2 = bs.flatten.map Item.cid
        ∧ (∀ k, k ∉ bs.flatten.map Item.cid →
            storeGet (runBatches args encode s bs).1 k = storeGet s k)
        ∧ (∀ it ∈ bs.flatten,
            storeGet (runBatches args encode s bs).1 it.cid =
              some (mkRec encode it)) := by
  intro bs
  induction bs with
  | nil =>
    intro s _
    refine ⟨rfl, fun k _ => rfl, fun it hit => absurd hit (by simp)⟩
  | cons b bs ih =>
    intro s hnd
    have hflat : (b :: bs).flatten = b ++ bs.flatten := by simp
    rw [hflat] at hnd
    rw [List.map_append, List.nodup_append] at hnd
    obtain ⟨hndb, hndbs, hdisj⟩ := hnd
    set entries := b.map (fun it => (it.cid, mkRec encode it)) with hentries
    have hkeys : entries.map Prod.fst = b.map Item.cid := by
      simp [hentries, Function.comp]
    have hrun :
        runBatches args encode s (b :: bs) =
          ((runBatches args encode (storeUpsertMany s entries) bs).1,
            b.map (fun it => it.cid) ++
              (runBatches args encode (storeUpsertMany s entries) bs).2) := by
      simp only [runBatches]
      rw [if_neg hm]
    obtain ⟨ihw, ihu, ihl⟩ := ih (storeUpsertMany s entries) hndbs
    rw [hrun, hflat]
    refine ⟨?_, ?_, ?_⟩
    · rw [List.map_append, ihw]
    · intro k hkmem
      rw [List.map_append, List.mem_append, not_or] at hkmem
      obtain ⟨hk1, hk2⟩ := hkmem
      rw [ihu k hk2]
      apply storeGet_upsertMany_not_mem
      rw [hkeys]
      exact hk1
    · intro it hit
      rcases List.mem_append.mp hit with hb' | hbs'
      · have hcid_notin : it.cid ∉ bs.flatten.map Item.cid := by
          intro hmem
          exact hdisj (List.mem_map_of_mem _ hb') hmem
        rw [ihu it.cid hcid_notin]
        apply storeGet_upsertMany_mem
        · rw [hkeys]; exact hndb
        · rw [hentries]
          exact List.mem_map_of_mem _ hb'
      · exact ihl it hbs'

/-! ### Lemmas about the stage 3 validation -/

/-- Id extraction succeeds exactly on rows that all carry a `chunk_id` key,
and then returns the per-row values. -/
theorem extractIds_ok_of (rows : List Row)
    (h : ∀ r ∈ rows, (metaGet r.metadata "chunk_id").isSome) :
    extractIds rows = Except.ok (rows.map chunkIdOf) := by
  induction rows with
  | nil => rfl
  | cons r rs ih =>
    have hr := h r (List.mem_cons_self r rs)
    cases hg : metaGet r.metadata "chunk_id" with
    | none => rw [hg] at hr; cases hr
    | some v =>
      have := ih (fun x hx => h x (List.mem_cons_of_mem r hx))
      simp [extractIds, hg, this, chunkIdOf, Except.map]

/-- Successful id extraction yields the per-row values, all present. -/
theorem extractIds_ok_elim (rows : List Row) (ids : List JVal)
    (h : extractIds rows = Except.ok ids) :
    ids = rows.map chunkIdOf ∧
      ∀ r ∈ rows, (metaGet r.metadata "chunk_id").isSome := by
  induction rows generalizing ids with
  | nil =>
    cases h
    exact ⟨rfl, by simp⟩
  | cons r rs ih =>
    cases hg : metaGet r.metadata "chunk_id" with
    | none => rw [extractIds, hg] at h; cases h
    | some v =>
      rw [extractIds, hg] at h
      cases hrec : extractIds rs with
      | error e => rw [hrec] at h; cases h
      | ok ids' =>
        rw [hrec] at h
        cases h
        obtain ⟨heq, hall⟩ := ih ids' hrec
        constructor
        · simp [heq, chunkIdOf, hg]
        · intro x hx
          rcases List.mem_cons.mp hx with h0 | h1
          · subst h0; simp [hg]
          · exact hall x h1

/-- Metadata building succeeds exactly when every row's `heading_path`
joins. -/
theorem buildMetas_ok_of (rows : List Row)
    (h : ∀ r ∈ rows, (headingPathStr r.metadata).isSome) :
    ∃ ms, buildMetas rows = Except.ok ms ∧ ms.length = rows.length := by
  induction rows with
  | nil => exact ⟨[], rfl, rfl⟩
  | cons r rs ih =>
    have hr := h r (List.mem_cons_self r rs)
    cases hg : headingPathStr r.metadata with
    | none => rw [hg] at hr; cases hr
    | some hps =>
      obtain ⟨ms, hms, hlen⟩ := ih (fun x hx => h x (List.mem_cons_of_mem r hx))
      exact ⟨projMeta r.metadata hps :: ms,
        by simp [buildMetas, hg, hms, Except.map], by simp [hlen]⟩

/-- Successful metadata building means every row's `heading_path` joins, and
produces one flattened mapping per row. -/
theorem buildMetas_ok_elim (rows : List Row) (ms : List Meta)
    (h : buildMetas rows = Except.ok ms) :
    ms.length = rows.length ∧
      ∀ r ∈ rows, (headingPathStr r.metadata).isSome := by
  induction rows generalizing ms with
  | nil =>
    cases h
    exact ⟨rfl, by simp⟩
  | cons r rs ih =>
    cases hg : headingPathStr r.metadata with
    | none => rw [buildMetas, hg] at h; cases h
    | some hps =>
      rw [buildMetas, hg] at h
      cases hrec : buildMetas rs with
      | error e => rw [hrec] at h; cases h
      | ok ms' =>
        rw [hrec] at h
        cases h
        obtain ⟨hlen, hall⟩ := ih ms' hrec
        refine ⟨by simp [hlen], ?_⟩
        intro x hx
        rcases List.mem_cons.mp hx with h0 | h1
        · subst h0; simp [hg]
        · exact hall x h1

/-- A non-empty accumulator can never produce the empty index list. -/
theorem collectMissingGo_ne_nil (rows : List Row) :
    ∀ (idx : Nat) (acc : List Nat), acc ≠ [] →
      collectMissingGo idx acc rows ≠ Except.ok [] := by
  induction rows with
  | nil =>
    intro idx acc hacc h
    rw [collectMissingGo] at h
    injection h with h'
    exact hacc (List.reverse_eq_nil_iff.mp h')
  | cons r rs ih =>
    intro idx acc hacc h
    rw [collectMissingGo] at h
    cases hg : headingPathStr r.metadata with
    | none => rw [hg] at h; cases h
    | some hps =>
      rw [hg] at h
      by_cases hm : rowMissingSix r.metadata
      · rw [if_pos hm] at h
        by_cases h5 : (idx :: acc).length ≥ 5
        · rw [if_pos h5] at h
          injection h with h'
          have : (idx :: acc) = [] := List.reverse_eq_nil_iff.mp h'
          cases this
        · rw [if_neg h5] at h
          exact ih (idx + 1) (idx :: acc) (by simp) h
      · rw [if_neg hm] at h
        exact ih (idx + 1) acc hacc h

/-- On rows whose `heading_path` joins and whose required fields are all
present, the validation loop collects nothing. -/
theorem collectMissingGo_ok_of (rows : List Row)
    (h : ∀ r ∈ rows, (headingPathStr r.metadata).isSome ∧
      rowMissingSix r.metadata = false) :
    ∀ idx : Nat, collectMissingGo idx [] rows = Except.ok [] := by
  induction rows with
  | nil => intro idx; rfl
  | cons r rs ih =>
    intro idx
    obtain ⟨hh, hm⟩ := h r (List.mem_cons_self r rs)
    cases hg : headingPathStr r.metadata with
    | none => rw [hg] at hh; cases hh
    | some hps =>
      rw [collectMissingGo, hg, hm]
      simp only [if_false, Bool.false_eq_true]
      exact ih (fun x hx => h x (List.mem_cons_of_mem r hx)) (idx + 1)

/-- If the validation loop starting empty collects nothing, every row's
`heading_path` joins and no required field is missing. -/
theorem collectMissingGo_clean (rows : List Row) :
    ∀ idx : Nat, collectMissingGo idx [] rows = Except.ok [] →
      ∀ r ∈ rows, (headingPathStr r.metadata).isSome ∧
        rowMissingSix r.metadata = false := by
  induction rows with
  | nil => intro idx _ r hr; cases hr
  | cons r rs ih =>
    intro idx h x hx
    rw [collectMissingGo] at h
    cases hg : headingPathStr r.metadata with
    | none => rw [hg] at h; cases h
    | some hps =>
      rw [hg] at h
      by_cases hm : rowMissingSix r.metadata
      · rw [if_pos hm] at h
        have h5 : ¬ ([idx] : List Nat).length ≥ 5 := by simp
        rw [if_neg h5] at h
        exact absurd h (collectMissingGo_ne_nil rs (idx + 1) [idx] (by simp))
      · rw [if_neg hm] at h
        rcases List.mem_cons.mp hx with h0 | h1
        · subst h0
          exact ⟨by simp [hg], by simpa using hm⟩
        · exact ih (idx + 1) h x h1

/-- Length is preserved by dedup exactly on duplicate-free lists (the
`len(ids) != len(set(ids))` test). -/
theorem length_dedup_iff {α : Type} [DecidableEq α] (l : List α) :
    l.length = l.dedup.length ↔ l.Nodup := by
  constructor
  · intro h
    have hsub : List.Sublist l.dedup l := List.dedup_sublist l
    have : l.dedup = l := hsub.eq_of_length h.symm
    rw [← this]
    exact l.nodup_dedup
  · intro h
    rw [List.dedup_eq_self.mpr h]

/-- Unpacking a successful VALIDATE: the ids are the rows' `chunk_id`
values, pairwise distinct; the metadata list is the flattened per-row
mappings; and every row passes the required-field and `heading_path`
checks. -/
theorem stage3Prepare_ok_elim (rows : List Row) (ids : List JVal)
    (metas : List Meta)
    (h : stage3Prepare rows = Except.ok (ids, metas)) :
    ids = rows.map chunkIdOf ∧ ids.Nodup ∧
      buildMetas rows = Except.ok metas ∧ metas.length = rows.length ∧
      ∀ r ∈ rows, (headingPathStr r.metadata).isSome ∧
        rowMissingSix r.metadata = false := by
  unfold stage3Prepare at h
  cases he : extractIds rows with
  | error e => rw [he] at h; cases h
  | ok ids' =>
    rw [he] at h
    cases hb : buildMetas rows with
    | error e => rw [hb] at h; cases h
    | ok metas' =>
      rw [hb] at h
      cases hc : collectMissing rows with
      | error e => rw [hc] at h; cases h
      | ok missing =>
        rw [hc] at h
        simp only [bind, Except.bind] at h
        by_cases hmiss : missing ≠ []
        · rw [if_pos hmiss] at h; cases h
        · rw [if_neg hmiss] at h
          by_cases hdup : ids'.length ≠ ids'.dedup.length
          · rw [if_pos hdup] at h; cases h
          · rw [if_neg hdup] at h
            cases h
            push_neg at hmiss hdup
            obtain ⟨hid, _⟩ := extractIds_ok_elim rows ids he
            obtain ⟨hlen, _⟩ := buildMetas_ok_elim rows metas hb
            have hclean := collectMissingGo_clean rows 0 (by
              rw [show collectMissing rows = collectMissingGo 0 [] rows from rfl]
                at hc
              rw [hc, hmiss])
            exact ⟨hid, (length_dedup_iff ids).mp hdup, rfl, hlen, hclean⟩

/-- VALIDATE accepts rows that all pass the required-field and
`heading_path` checks and have distinct ids. -/
theorem stage3Prepare_ok_of (rows : List Row)
    (hclean : ∀ r ∈ rows, (headingPathStr r.metadata).isSome ∧
      rowMissingSix r.metadata = false)
    (hnd : (rows.map chunkIdOf).Nodup) :
    ∃ metas, stage3Prepare rows = Except.ok (rows.map chunkIdOf, metas) := by
  have hids : ∀ r ∈ rows, (metaGet r.metadata "chunk_id").isSome := by
    intro r hr
    have hm := (hclean r hr).2
    unfold rowMissingSix at hm
    have hall := List.any_eq_false.mp (by simpa using hm)
    have hcid := hall "chunk_id" (by simp [requiredKeys3])
    cases hg : metaGet r.metadata "chunk_id" with
    | none => rw [hg] at hcid; simp at hcid
    | some v => simp
  have he := extractIds_ok_of rows hids
  obtain ⟨ms, hb, _⟩ := buildMetas_ok_of rows (fun r hr => (hclean r hr).1)
  have hc : collectMissing rows = Except.ok [] :=
    collectMissingGo_ok_of rows hclean 0
  refine ⟨ms, ?_⟩
  unfold stage3Prepare
  rw [he, hb, hc]
  simp only [bind, Except.bind]
  simp only [if_neg (by simp : ¬ (([] : List Nat) ≠ []))]
  rw [if_neg (by
    simp only [ne_eq, not_not]
    exact (length_dedup_iff _).mpr hnd)]

/-- A VALIDATE failure aborts the whole run with that error: nothing is
embedded and nothing is written. -/
theorem stage3Run_error_of_prepare (rows : List Row) (e : Stage3Err)
    (h : stage3Prepare rows = Except.error e) (args : Args3) (hsh : String)
    (encode : String → List Int) (client : Option Collection) :
    stage3Run args hsh encode rows client = Except.error e := by
  unfold stage3Run
  rw [h]
  rfl

/-- The append-mode guard only ever raises the zero-batch-size error or the
duplicate-ids report. -/
theorem stage3AppendCheck_error_elim (args : Args3) (store : Store)
    (ids : List JVal) (e : Stage3Err)
    (h : stage3AppendCheck args store ids = Except.error e) :
    e = Stage3Err.zeroBatchSize ∨
      ∃ sample, e = Stage3Err.appendDuplicates sample := by
  unfold stage3AppendCheck at h
  by_cases hm : args.mode = SyncMode.append
  · rw [if_pos hm] at h
    by_cases hz : min args.batch_size 256 = 0
    · rw [if_pos hz] at h
      cases h
      exact Or.inl rfl
    · rw [if_neg hz] at h
      by_cases he : find_existing_ids store (min args.batch_size 256) ids = []
      · rw [if_pos he] at h; cases h
      · rw [if_neg he] at h
        cases h
        exact Or.inr ⟨_, rfl⟩
  · rw [if_neg hm] at h
    cases h

/-! ### Claim theorems -/

/-- C1 (counterexample): a one-record batch actually produced by the
Segmenter/Identity stage, with every §6 required field populated and
non-empty and no duplicate `chunk_id`, is nevertheless REJECTED by the Sync
Planner's VALIDATE step: the code's required-key list is
`chunk_id, chunk_key, chunk_hash, source_uri, chunk_index, cleaned_text`
(src/03_stage3_build_chroma.py:147), and `chunk_key`, `chunk_hash`,
`source_uri`, `cleaned_text` are fields the §6 schema does not carry, so the
batch is reported as having missing metadata in row 0 and the run errors
before anything is written. -/
theorem c1_counterexample :
    batch6Ok c1Batch = true ∧ (c1Batch.map chunkIdOf).Nodup ∧
      stage3Prepare c1Batch = Except.error (Stage3Err.missingMeta [0]) ∧
      stage3Run argsU "hsh" encode1 c1Batch none =
        Except.error (Stage3Err.missingMeta [0]) := by
  refine ⟨by decide, by decide, by decide, ?_⟩
  exact stage3Run_error_of_prepare c1Batch _ (by decide) argsU "hsh" encode1 none

/-- C1 (amended): VALIDATE accepts a batch exactly when every record passes
the code's required-field test — `chunk_id`, `chunk_key`, `chunk_hash`,
`source_uri`, `chunk_index`, `cleaned_text` all present and neither null nor
the empty string (`rowMissingSix`), with a joinable `heading_path` — and no
two records share a `chunk_id` value.  The §6 fields such as `doc_id`,
`chunk_anchor` or `out_links` are not themselves checked; any violation
raises before anything is written. -/
theorem c1_validate_accepts_iff (rows : List Row) :
    (∃ v, stage3Prepare rows = Except.ok v) ↔
      (∀ r ∈ rows, (headingPathStr r.metadata).isSome ∧
          rowMissingSix r.metadata = false) ∧
        (rows.map chunkIdOf).Nodup := by
  constructor
  · rintro ⟨⟨ids, metas⟩, h⟩
    obtain ⟨hid, hnd, _, _, hclean⟩ := stage3Prepare_ok_elim rows ids metas h
    exact ⟨hclean, hid ▸ hnd⟩
  · rintro ⟨hclean, hnd⟩
    obtain ⟨metas, h⟩ := stage3Prepare_ok_of rows hclean hnd
    exact ⟨_, h⟩

/-- C4 (counterexample): on a document with two same-titled `## A` sections,
the Chunk Identity Assigner (stage 2, run end-to-end with `prefer_stage1`)
completes without any error and emits two records that share the chunk id
`doc::a::0` — the duplicate is silently written out by that stage, not
rejected. -/
theorem c4_counterexample :
    stage2Run c4Yaml noIso (fun _ => "R") hashH true true c4Doc "n.md" c4Raw
        "m" 384 2500 = Except.ok c4Rows ∧
      c4Rows.map chunkIdOf = [JVal.s "doc::a::0", JVal.s "doc::a::0"] ∧
      ¬ (c4Rows.map chunkIdOf).Nodup := by
  refine ⟨by decide, by decide, by decide⟩

/-- C4 (amended): the duplicate-`chunk_id` hard error is enforced not by the
Chunk Identity Assigner but downstream by the Sync Planner's VALIDATE step:
any batch whose `chunk_id` values repeat is rejected there, and the whole
synchronization run aborts with an error before anything is written. -/
theorem c4_planner_rejects_duplicates (rows : List Row)
    (h : ¬ (rows.map chunkIdOf).Nodup) :
    (∃ e, stage3Prepare rows = Except.error e) ∧
      ∀ (args : Args3) (hsh : String) (encode : String → List Int)
        (client : Option Collection),
        ∃ e, stage3Run args hsh encode rows client = Except.error e := by
  have hnotok : ∀ v, stage3Prepare rows ≠ Except.ok v := by
    intro ⟨ids, metas⟩ hok
    obtain ⟨hid, hnd, _, _, _⟩ := stage3Prepare_ok_elim rows ids metas hok
    exact h (hid ▸ hnd)
  cases hp : stage3Prepare rows with
  | ok v => exact absurd hp (hnotok v)
  | error e =>
    refine ⟨⟨e, rfl⟩, ?_⟩
    intro args hsh encode client
    exact ⟨e, stage3Run_error_of_prepare rows e hp args hsh encode client⟩

/-- C4 (witness): the concrete duplicate batch of the counterexample
discharges the amended theorem's hypothesis. -/
theorem c4_planner_rejects_duplicates_witness :
    (∃ e, stage3Prepare c4Rows = Except.error e) ∧
      ∀ (args : Args3) (hsh : String) (encode : String → List Int)
        (client : Option Collection),
        ∃ e, stage3Run args hsh encode c4Rows client = Except.error e :=
  c4_planner_rejects_duplicates c4Rows (by decide)

/-- C3: whenever the chunking stage runs without `prefer_stage1` (and its
frontmatter parse succeeds, which happens even earlier), the stage-0
fallback branch evaluates `normalize_markdown_light(body_md)` where
`body_md` is bound nowhere in the module — the frontmatter-stripped text is
bound to `body` — so the run raises the unbound-name error before any
section is split and before any chunk is produced or written: the fallback
normalization path can never produce output. -/
theorem c3_fallback_unbound_name
    (yamlParse : String → Except String Meta)
    (isoParse : String → Option String)
    (hashBytes hashText : String → String) (stage1Exists : Bool)
    (stage1Text srcName rawText embed_model : String)
    (embed_dim : Int) (max_chars : Nat) (m : Meta)
    (hyaml : stage2Frontmatter yamlParse rawText = Except.ok m) :
    stage2Run yamlParse isoParse hashBytes hashText false stage1Exists
        stage1Text srcName rawText embed_model embed_dim max_chars =
      Except.error Stage2Err.nameErrorBodyMd := by
  unfold stage2Run
  rw [hyaml]
  rfl

/-- C3 (witness): a concrete frontmatter-free invocation without
`prefer_stage1` raises the unbound-name error. -/
theorem c3_fallback_unbound_name_witness :
    stage2Frontmatter c4Yaml "body\n" = Except.ok [] ∧
      stage2Run c4Yaml noIso hashH hashH false true "" "n.md" "body\n" "m"
          384 2500 =
        Except.error Stage2Err.nameErrorBodyMd :=
  ⟨by decide,
    c3_fallback_unbound_name c4Yaml noIso hashH hashH true "" "n.md" "body\n"
      "m" 384 2500 [] (by decide)⟩

/-- C5 (counterexample): the section-splitting example does not yield
exactly the two claimed sections — the leading "Pre" text is not an empty
preamble and is not dropped. -/
theorem c5_counterexample :
    split_into_sections "Pre\n## A\nfoo\n## B\nbar\n" ≠
      [("a", "A", "foo\n"), ("b", "B", "bar\n")] := by decide

/-- C5 (amended): segmenting `"Pre\n## A\nfoo\n## B\nbar\n"` (split level 2)
yields exactly three sections: a preamble with body `"Pre\n"` — kept,
because a preamble is dropped only when its body is blank — followed by the
two claimed sections `("a","A","foo\n")` and `("b","B","bar\n")`. -/
theorem c5_sections_with_preamble :
    split_into_sections "Pre\n## A\nfoo\n## B\nbar\n" =
      [("preamble", "preamble", "Pre\n"), ("a", "A", "foo\n"),
       ("b", "B", "bar\n")] := by decide

/-- C6 (counterexample): a `[[X]]` lying inside a code fence is not
preserved verbatim and does emit an out-link: normalization removes the
fence markers, after which wikilink rewriting runs with no fence
information, so the chunk text becomes `"X\n"` with out-link
`(target := X)`. -/
theorem c6_counterexample :
    sectionChunks 2500 "```\n[[X]]\n```\n" =
        [("X\n", [⟨"X", none⟩])] ∧
      (sectionChunks 2500 "```\n[[X]]\n```\n").flatMap (fun c => c.2) ≠ [] := by
  exact ⟨by decide, by decide⟩

/-- C6 (amended): fence delimiters only remove the markers (and suppress
blockquote stripping); wikilink rewriting is applied uniformly afterwards,
inside former fences as well as outside, each occurrence rewritten to the
alias when present, else the target, with one out-link per match in
first-to-last order. -/
theorem c6_fence_blind_rewrite :
    sectionChunks 2500
        "```\n[[X]]\n```\nSee [[Project X|the project]] for more.\n" =
      [("X\nSee the project for more.\n",
        [⟨"X", none⟩, ⟨"Project X", some "the project"⟩])] := by decide

/-- C7 (counterexample): the packer does not flush "exactly when appending
the next piece would exceed max_chars".  For `max_chars = 7` and the
paragraph `"ab. cd. ef."`, appending `"cd."` to the buffer `["ab."]` would
give `"ab. cd."` of length 7 — not exceeding the bound — yet the code
flushes (its `cur + len + 1` accounting charges a separator after the last
piece), producing three chunks where the claim's rule produces two. -/
theorem c7_counterexample :
    paragraphChunks 7 "ab. cd. ef." =
        [("ab.\n", []), ("cd.\n", []), ("ef.\n", [])] ∧
      paragraphChunksClaim 7 "ab. cd. ef." =
        [("ab. cd.\n", []), ("ef.\n", [])] ∧
      paragraphChunks 7 "ab. cd. ef." ≠ paragraphChunksClaim 7 "ab. cd. ef." ∧
      ("ab. cd." : String).length ≤ 7 := by
  exact ⟨by decide, by decide, by decide, by decide⟩

/-- C7 (amended): the packer splits an overlong paragraph at sentence
boundaries and packs greedily, flushing when the separator-padded running
length `cur + len(piece) + 1` would pass `max_chars` (so also when the
joined buffer would only reach `max_chars` exactly); pieces are never
truncated.  On the claimed example — three 20-character sentences, single
spaces, `max_chars = 50` — it still produces exactly two chunks, the
minimum possible since all three sentences joined exceed 50, with no
sentence split. -/
theorem c7_packing_behaviour :
    paragraphChunks 50
        "aaaaaaaaaaaaaaaaaaa. bbbbbbbbbbbbbbbbbbb. ccccccccccccccccccc." =
        [("aaaaaaaaaaaaaaaaaaa. bbbbbbbbbbbbbbbbbbb.\n", []),
         ("ccccccccccccccccccc.\n", [])] ∧
      ("aaaaaaaaaaaaaaaaaaa. bbbbbbbbbbbbbbbbbbb. ccccccccccccccccccc." :
          String).length > 50 ∧
      ("aaaaaaaaaaaaaaaaaaa. bbbbbbbbbbbbbbbbbbb." : String).length ≤ 50 ∧
      ("ccccccccccccccccccc." : String).length ≤ 50 := by
  exact ⟨by decide, by decide, by decide, by decide⟩

/-- C10: segmentation plus identity assignment is a deterministic function
of its inputs — two runs on equal digest function, document fields,
size bound and chunk input produce equal row lists, hence byte-identical
chunk texts, identical chunk ids and identical content hashes. -/
theorem c10_determinism (hashText hashText' : String → String)
    (d d' : DocFields) (mc mc' : Nat) (inp inp' : String)
    (hh : hashText = hashText') (hd : d = d') (hm : mc = mc')
    (hi : inp = inp') :
    segmentAndIdentify hashText d mc inp =
        segmentAndIdentify hashText' d' mc' inp' ∧
      (segmentAndIdentify hashText d mc inp).map Row.text =
        (segmentAndIdentify hashText' d' mc' inp').map Row.text ∧
      (segmentAndIdentify hashText d mc inp).map chunkIdOf =
        (segmentAndIdentify hashText' d' mc' inp').map chunkIdOf ∧
      (segmentAndIdentify hashText d mc inp).map
          (fun r => metaGet r.metadata "content_hash") =
        (segmentAndIdentify hashText' d' mc' inp').map
          (fun r => metaGet r.metadata "content_hash") := by
  subst hh hd hm hi
  exact ⟨rfl, rfl, rfl, rfl⟩

/-- C10 (witness): the two runs on a concrete equal input coincide. -/
theorem c10_determinism_witness :
    segmentAndIdentify hashH d6 2500 "## A\nsee [[T]]\n" =
        segmentAndIdentify hashH d6 2500 "## A\nsee [[T]]\n" ∧
      (segmentAndIdentify hashH d6 2500 "## A\nsee [[T]]\n").map Row.text =
        (segmentAndIdentify hashH d6 2500 "## A\nsee [[T]]\n").map Row.text ∧
      (segmentAndIdentify hashH d6 2500 "## A\nsee [[T]]\n").map chunkIdOf =
        (segmentAndIdentify hashH d6 2500 "## A\nsee [[T]]\n").map chunkIdOf ∧
      (segmentAndIdentify hashH d6 2500 "## A\nsee [[T]]\n").map
          (fun r => metaGet r.metadata "content_hash") =
        (segmentAndIdentify hashH d6 2500 "## A\nsee [[T]]\n").map
          (fun r => metaGet r.metadata "content_hash") :=
  c10_determinism hashH hashH d6 d6 2500 2500 "## A\nsee [[T]]\n"
    "## A\nsee [[T]]\n" rfl rfl rfl rfl

/-- In append/upsert mode against an existing collection,
ENSURE_COLLECTION is exactly the two fingerprint tests. -/
theorem stage3Ensure_not_rebuild (args : Args3)
    (hmode : args.mode ≠ SyncMode.rebuild) (hsh : String) (c : Collection) :
    stage3Ensure args hsh (some c) =
      (if truthyNe (metaSGet c.meta "embed_model") args.embed_model then
        Except.error Stage3Err.embedModelMismatch
      else if truthyNe (metaSGet c.meta "settings_hash") hsh then
        Except.error Stage3Err.settingsHashMismatch
      else Except.ok c) := by
  cases hmm : args.mode with
  | rebuild => exact absurd hmm hmode
  | append => simp [stage3Ensure, hmm]
  | upsert => simp [stage3Ensure, hmm]

/-- C9: in append or upsert mode against an existing collection with truthy
stored `embed_model` and `settings_hash`, a mismatch of either value rejects
the run — before the embed-and-write loop, so nothing is embedded or
written — and when both match, the run is never rejected by this guard (any
remaining error is a different one). -/
theorem c9_fingerprint_guard (args : Args3)
    (hmode : args.mode ≠ SyncMode.rebuild)
    (rows : List Row) (ids : List JVal) (metas : List Meta)
    (hp : stage3Prepare rows = Except.ok (ids, metas))
    (hsh : String) (encode : String → List Int) (c : Collection)
    (m0 h0 : String)
    (hm0 : metaSGet c.meta "embed_model" = some m0) (hm0ne : m0 ≠ "")
    (hh0 : metaSGet c.meta "settings_hash" = some h0) (hh0ne : h0 ≠ "") :
    (m0 ≠ args.embed_model →
        stage3Run args hsh encode rows (some c) =
          Except.error Stage3Err.embedModelMismatch) ∧
      (m0 = args.embed_model → h0 ≠ hsh →
        stage3Run args hsh encode rows (some c) =
          Except.error Stage3Err.settingsHashMismatch) ∧
      (m0 = args.embed_model → h0 = hsh →
        ∀ e, stage3Run args hsh encode rows (some c) = Except.error e →
          e ≠ Stage3Err.embedModelMismatch ∧
            e ≠ Stage3Err.settingsHashMismatch) := by
  have hens := stage3Ensure_not_rebuild args hmode hsh c
  rw [hm0, hh0] at hens
  refine ⟨?_, ?_, ?_⟩
  · intro hne
    have ht : truthyNe (some m0) args.embed_model = true := by
      simp [truthyNe, hm0ne, hne]
    unfold stage3Run
    rw [hp]
    simp only [bind, Except.bind]
    rw [hens, if_pos ht]
  · intro heq hne
    have hf : truthyNe (some m0) args.embed_model = false := by
      simp [truthyNe, heq]
    have ht : truthyNe (some h0) hsh = true := by
      simp [truthyNe, hh0ne, hne]
    unfold stage3Run
    rw [hp]
    simp only [bind, Except.bind]
    rw [hens, hf, if_pos ht]
    rfl
  · intro heq1 heq2 e hrun
    have hf1 : truthyNe (some m0) args.embed_model = false := by
      simp [truthyNe, heq1]
    have hf2 : truthyNe (some h0) hsh = false := by
      simp [truthyNe, heq2]
    unfold stage3Run at hrun
    rw [hp] at hrun
    simp only [bind, Except.bind] at hrun
    rw [hens, hf1, hf2] at hrun
    simp only [Bool.false_eq_true, if_false] at hrun
    cases hac : stage3AppendCheck args c.store ids with
    | error e2 =>
      rw [hac] at hrun
      injection hrun with he
      subst he
      rcases stage3AppendCheck_error_elim args c.store ids e2 hac
        with h1 | ⟨sm, h2⟩
      · subst h1; exact ⟨by simp, by simp⟩
      · subst h2; exact ⟨by simp, by simp⟩
    | ok u =>
      cases u
      rw [hac] at hrun
      by_cases hz : args.batch_size = 0
      · rw [if_pos hz] at hrun
        cases hrun
        exact ⟨by simp, by simp⟩
      · rw [if_neg hz] at hrun
        cases hrun

/-- C9 (witness): a collection stamped `embed_model = m0`,
`settings_hash = h0` rejects an upsert run with model `m`, and its
sibling facts, at concrete inputs. -/
theorem c9_fingerprint_guard_witness :
    ("m0" ≠ argsU.embed_model →
        stage3Run argsU "hsh" encode1 [rowA, rowB] (some c9Coll) =
          Except.error Stage3Err.embedModelMismatch) ∧
      ("m0" = argsU.embed_model → "h0" ≠ "hsh" →
        stage3Run argsU "hsh" encode1 [rowA, rowB] (some c9Coll) =
          Except.error Stage3Err.settingsHashMismatch) ∧
      ("m0" = argsU.embed_model → "h0" = "hsh" →
        ∀ e, stage3Run argsU "hsh" encode1 [rowA, rowB] (some c9Coll) =
            Except.error e →
          e ≠ Stage3Err.embedModelMismatch ∧
            e ≠ Stage3Err.settingsHashMismatch) :=
  c9_fingerprint_guard argsU (by decide) [rowA, rowB]
    [JVal.s "c1", JVal.s "c2"]
    [[("chunk_id", JVal.s "c1"), ("chunk_key", JVal.s "k1"),
      ("chunk_hash", JVal.s "h1"), ("chunk_index", JVal.i 0),
      ("source_uri", JVal.s "u1"), ("cleaned_text", JVal.s "x"),
      ("heading_path_str", JVal.s "")],
     [("chunk_id", JVal.s "c2"), ("chunk_key", JVal.s "k2"),
      ("chunk_hash", JVal.s "h2"), ("chunk_index", JVal.i 1),
      ("source_uri", JVal.s "u2"), ("cleaned_text", JVal.s "y"),
      ("heading_path_str", JVal.s "")]]
    (by decide) "hsh" encode1 c9Coll "m0" "h0" (by decide) (by decide)
    (by decide) (by decide)

/-- Creating a fresh collection stamps the current run's `embed_model`. -/
theorem metaSGet_stampMeta_model (args : Args3) (hsh : String) :
    metaSGet (stampMeta args hsh) "embed_model" = some args.embed_model := rfl

/-- Creating a fresh collection stamps the current run's fingerprint. -/
theorem metaSGet_stampMeta_hash (args : Args3) (hsh : String) :
    metaSGet (stampMeta args hsh) "settings_hash" = some hsh := rfl

/-- A freshly stamped collection passes the fingerprint guard of a later
run with the same model and fingerprint. -/
theorem stage3Ensure_stamped (args : Args3)
    (hmode : args.mode ≠ SyncMode.rebuild) (hsh : String) (store : Store) :
    stage3Ensure args hsh (some ⟨stampMeta args hsh, store⟩) =
      Except.ok ⟨stampMeta args hsh, store⟩ := by
  rw [stage3Ensure_not_rebuild args hmode hsh _]
  have h1 : truthyNe (metaSGet (stampMeta args hsh) "embed_model")
      args.embed_model = false := by
    rw [metaSGet_stampMeta_model]
    simp [truthyNe]
  have h2 : truthyNe (metaSGet (stampMeta args hsh) "settings_hash") hsh
      = false := by
    rw [metaSGet_stampMeta_hash]
    simp [truthyNe]
  rw [h1, h2]
  simp

/-- C8: append-mode safety.  (a) If any batch id already exists in the
target collection, the entire run is rejected — before the embed-and-write
loop, so nothing is embedded and nothing is written — and the error carries
a sample of at most the first 10 offending ids, in batch order.  (b) Running
append mode twice with the same non-empty batch (starting from no
collection) succeeds once, writing every id, and fails on the second run
with a non-empty duplicate report and nothing written that run. -/
theorem c8_append_safety (args : Args3) (hm : args.mode = SyncMode.append)
    (hb : 0 < args.batch_size) (hsh : String) (encode : String → List Int)
    (rows : List Row) (ids : List JVal) (metas : List Meta)
    (hp : stage3Prepare rows = Except.ok (ids, metas)) :
    (∀ coll : Collection,
        stage3Ensure args hsh (some coll) = Except.ok coll →
        ids.filter (fun i => (storeGet coll.store i).isSome) ≠ [] →
        stage3Run args hsh encode rows (some coll) =
            Except.error (Stage3Err.appendDuplicates
              ((ids.filter (fun i => (storeGet coll.store i).isSome)).take 10))
          ∧ ((ids.filter
              (fun i => (storeGet coll.store i).isSome)).take 10).length ≤ 10)
    ∧ (rows ≠ [] →
        ∃ res, stage3Run args hsh encode rows none = Except.ok res
          ∧ res.writtenIds = ids
          ∧ stage3Run args hsh encode rows (some res.coll) =
              Except.error (Stage3Err.appendDuplicates (ids.take 10))
          ∧ ids.take 10 ≠ []) := by
  have hminpos : 0 < min args.batch_size 256 :=
    Nat.lt_min.mpr ⟨hb, by norm_num⟩
  have hminne : ¬ (min args.batch_size 256 = 0) :=
    Nat.pos_iff_ne_zero.mp hminpos
  have hbne : ¬ (args.batch_size = 0) := by omega
  obtain ⟨hid, hnd, _, hmlen, _⟩ := stage3Prepare_ok_elim rows ids metas hp
  have hidlen : ids.length = rows.length := by rw [hid]; simp
  have hitems :
      (mkItems ids (rows.map Row.text) metas).map Item.cid = ids := by
    apply mkItems_map_cid
    · simp [hidlen]
    · simp [hmlen]
  constructor
  · intro coll hens hne
    have hchk : stage3AppendCheck args coll.store ids =
        Except.error (Stage3Err.appendDuplicates
          ((ids.filter (fun i => (storeGet coll.store i).isSome)).take 10)) := by
      unfold stage3AppendCheck
      rw [if_pos hm, if_neg hminne,
        find_existing_ids_eq_filter coll.store _ hminpos ids, if_neg hne]
    constructor
    · unfold stage3Run
      rw [hp]
      simp only [bind, Except.bind, hens, hchk]
    · rw [List.length_take]
      omega
  · intro hrows
    have hidsne : ids ≠ [] := by
      rw [hid]
      simpa using hrows
    have hens0 : stage3Ensure args hsh none =
        Except.ok ⟨stampMeta args hsh, []⟩ := by
      simp [stage3Ensure, hm]
    have hcheck0 : stage3AppendCheck args ([] : Store) ids = Except.ok () := by
      unfold stage3AppendCheck
      rw [if_pos hm, if_neg hminne,
        find_existing_ids_eq_filter ([] : Store) _ hminpos ids]
      simp [storeGet]
    have hnodup : ((batchList args.batch_size
        (mkItems ids (rows.map Row.text) metas)).flatten.map Item.cid).Nodup := by
      rw [batchList_flatten _ hb, hitems]
      exact hnd
    have hnupsert :
        ¬ (args.mode = SyncMode.upsert ∧ args.skip_unchanged = true) := by
      rw [hm]
      rintro ⟨h1, _⟩
      cases h1
    obtain ⟨hw, hu, hl⟩ := runBatches_add_spec args encode hnupsert
      (batchList args.batch_size (mkItems ids (rows.map Row.text) metas))
      ([] : Store) hnodup
    have hrun1 : stage3Run args hsh encode rows none =
        Except.ok
          { coll := ⟨stampMeta args hsh,
              (runBatches args encode ([] : Store)
                (batchList args.batch_size
                  (mkItems ids (rows.map Row.text) metas))).1⟩
            writtenIds := (runBatches args encode ([] : Store)
                (batchList args.batch_size
                  (mkItems ids (rows.map Row.text) metas))).2
            manifest :=
              { settings_hash := hsh
                chunks := rows.length
                added := (runBatches args encode ([] : Store)
                    (batchList args.batch_size
                      (mkItems ids (rows.map Row.text) metas))).2.length } } := by
      unfold stage3Run
      rw [hp]
      simp only [bind, Except.bind, hens0, hcheck0]
      rw [if_neg hbne]
    have hwids : (runBatches args encode ([] : Store)
        (batchList args.batch_size
          (mkItems ids (rows.map Row.text) metas))).2 = ids := by
      rw [hw, batchList_flatten _ hb, hitems]
    have hpresent : ∀ i ∈ ids,
        (storeGet (runBatches args encode ([] : Store)
          (batchList args.batch_size
            (mkItems ids (rows.map Row.text) metas))).1 i).isSome := by
      intro i hi
      rw [← hitems] at hi
      obtain ⟨it, hit, hceq⟩ := List.mem_map.mp hi
      have hitmem : it ∈ (batchList args.batch_size
          (mkItems ids (rows.map Row.text) metas)).flatten := by
        rw [batchList_flatten _ hb]
        exact hit
      rw [← hceq, hl it hitmem]
      rfl
    have hfilter2 : (ids.filter (fun i =>
        (storeGet (runBatches args encode ([] : Store)
          (batchList args.batch_size
            (mkItems ids (rows.map Row.text) metas))).1 i).isSome)) = ids :=
      List.filter_eq_self.mpr hpresent
    have hens2 := stage3Ensure_stamped args (by rw [hm]; simp) hsh
      (runBatches args encode ([] : Store)
        (batchList args.batch_size (mkItems ids (rows.map Row.text) metas))).1
    have hchk2 : stage3AppendCheck args
        (runBatches args encode ([] : Store)
          (batchList args.batch_size
            (mkItems ids (rows.map Row.text) metas))).1 ids =
        Except.error (Stage3Err.appendDuplicates (ids.take 10)) := by
      unfold stage3AppendCheck
      rw [if_pos hm, if_neg hminne,
        find_existing_ids_eq_filter _ _ hminpos ids, hfilter2, if_neg hidsne]
    have hrun2 : stage3Run args hsh encode rows
        (some ⟨stampMeta args hsh,
          (runBatches args encode ([] : Store)
            (batchList args.batch_size
              (mkItems ids (rows.map Row.text) metas))).1⟩) =
        Except.error (Stage3Err.appendDuplicates (ids.take 10)) := by
      unfold stage3Run
      rw [hp]
      simp only [bind, Except.bind, hens2, hchk2]
    refine ⟨_, hrun1, hwids, hrun2, ?_⟩
    intro htake
    rcases List.take_eq_nil_iff.mp htake with h10 | hnil
    · cases h10
    · exact hidsne hnil

/-- C2: in upsert mode with `skip_unchanged`, against a collection passing
the fingerprint guard, the run succeeds and, for every chunk of the batch:
the chunk is written exactly when the collection does not already hold a
record with the same id whose stored `chunk_hash` equals the chunk's
(`skipB`); a skipped chunk's stored record is untouched (so siblings of a
mutated chunk keep their records); a written chunk ends stored as its fresh
record (text, flattened metadata, embedding of its text). -/
theorem c2_upsert_skip_unchanged (args : Args3)
    (hm : args.mode = SyncMode.upsert) (hs : args.skip_unchanged = true)
    (hb : 0 < args.batch_size) (hsh : String) (encode : String → List Int)
    (rows : List Row) (ids : List JVal) (metas : List Meta)
    (hp : stage3Prepare rows = Except.ok (ids, metas)) (coll : Collection)
    (hens : stage3Ensure args hsh (some coll) = Except.ok coll) :
    ∃ res, stage3Run args hsh encode rows (some coll) = Except.ok res
      ∧ res.writtenIds =
          ((mkItems ids (rows.map Row.text) metas).filter
            (fun it => !skipB coll.store it)).map Item.cid
      ∧ ∀ it ∈ mkItems ids (rows.map Row.text) metas,
          (it.cid ∈ res.writtenIds ↔ skipB coll.store it = false)
          ∧ (skipB coll.store it = true →
              storeGet res.coll.store it.cid = storeGet coll.store it.cid)
          ∧ (skipB coll.store it = false →
              storeGet res.coll.store it.cid = some (mkRec encode it)) := by
  have hbne : ¬ (args.batch_size = 0) := by omega
  obtain ⟨hid, hnd, _, hmlen, _⟩ := stage3Prepare_ok_elim rows ids metas hp
  have hidlen : ids.length = rows.length := by rw [hid]; simp
  have hitems :
      (mkItems ids (rows.map Row.text) metas).map Item.cid = ids := by
    apply mkItems_map_cid
    · simp [hidlen]
    · simp [hmlen]
  have hchk : stage3AppendCheck args coll.store ids = Except.ok () := by
    unfold stage3AppendCheck
    rw [if_neg (by rw [hm]; intro h; cases h)]
  have hflat : (batchList args.batch_size
      (mkItems ids (rows.map Row.text) metas)).flatten =
        mkItems ids (rows.map Row.text) metas :=
    batchList_flatten _ hb _
  have hnodup : ((batchList args.batch_size
      (mkItems ids (rows.map Row.text) metas)).flatten.map Item.cid).Nodup := by
    rw [hflat, hitems]
    exact hnd
  obtain ⟨hw, hu, hl⟩ := runBatches_upsert_spec args encode hm hs
    (batchList args.batch_size (mkItems ids (rows.map Row.text) metas))
    coll.store coll.store hnodup (fun it _ => rfl)
  rw [hflat] at hw hu hl
  have hrun : stage3Run args hsh encode rows (some coll) =
      Except.ok
        { coll := { coll with store :=
            (runBatches args encode coll.store
              (batchList args.batch_size
                (mkItems ids (rows.map Row.text) metas))).1 }
          writtenIds := (runBatches args encode coll.store
              (batchList args.batch_size
                (mkItems ids (rows.map Row.text) metas))).2
          manifest :=
            { settings_hash := hsh
              chunks := rows.length
              added := (runBatches args encode coll.store
                  (batchList args.batch_size
                    (mkItems ids (rows.map Row.text) metas))).2.length } } := by
    unfold stage3Run
    rw [hp]
    simp only [bind, Except.bind, hens, hchk]
    rw [if_neg hbne]
  have hndcid : ((mkItems ids (rows.map Row.text) metas).map Item.cid).Nodup := by
    rw [hitems]; exact hnd
  refine ⟨_, hrun, hw, ?_⟩
  intro it hit
  refine ⟨⟨?_, ?_⟩, ?_, ?_⟩
  · intro hmem
    rw [hw] at hmem
    obtain ⟨it', hit', hceq⟩ := List.mem_map.mp hmem
    have hit'mem : it' ∈ mkItems ids (rows.map Row.text) metas :=
      (List.filter_sublist _).subset hit'
    have heq : it' = it :=
      List.inj_on_of_nodup_map hndcid hit'mem hit hceq
    have := (List.mem_filter.mp hit').2
    rw [heq] at this
    simpa using this
  · intro hskip
    rw [hw]
    apply List.mem_map_of_mem
    exact List.mem_filter.mpr ⟨hit, by simp [hskip]⟩
  · intro hskip
    have hnotmem : it.cid ∉
        ((mkItems ids (rows.map Row.text) metas).filter
          (fun x => !skipB coll.store x)).map Item.cid := by
      intro hmem
      obtain ⟨it', hit', hceq⟩ := List.mem_map.mp hmem
      have hit'mem : it' ∈ mkItems ids (rows.map Row.text) metas :=
        (List.filter_sublist _).subset hit'
      have heq : it' = it :=
        List.inj_on_of_nodup_map hndcid hit'mem hit hceq
      have := (List.mem_filter.mp hit').2
      rw [heq, hskip] at this
      simp at this
    exact hu it.cid hnotmem
  · intro hskip
    exact hl it hit hskip

/-- C2 (witness): against a collection already holding `c1` with the same
stored `chunk_hash`, the concrete upsert run with change skipping skips `c1`
and writes `c2`. -/
theorem c2_upsert_skip_unchanged_witness :
    ∃ res, stage3Run argsU "hsh" encode1 rowsAB (some c2Coll) = Except.ok res
      ∧ res.writtenIds =
          ((mkItems idsAB (rowsAB.map Row.text) metasAB).filter
            (fun it => !skipB c2Coll.store it)).map Item.cid
      ∧ ∀ it ∈ mkItems idsAB (rowsAB.map Row.text) metasAB,
          (it.cid ∈ res.writtenIds ↔ skipB c2Coll.store it = false)
          ∧ (skipB c2Coll.store it = true →
              storeGet res.coll.store it.cid = storeGet c2Coll.store it.cid)
          ∧ (skipB c2Coll.store it = false →
              storeGet res.coll.store it.cid = some (mkRec encode1 it)) :=
  c2_upsert_skip_unchanged argsU rfl rfl (by decide) "hsh" encode1 rowsAB
    idsAB metasAB (by decide) c2Coll (by decide)

/-- C8 (witness): the concrete append run and double run, with the
two-record batch. -/
theorem c8_append_safety_witness :
    (∀ coll : Collection,
        stage3Ensure argsApp "hsh" (some coll) = Except.ok coll →
        idsAB.filter (fun i => (storeGet coll.store i).isSome) ≠ [] →
        stage3Run argsApp "hsh" encode1 rowsAB (some coll) =
            Except.error (Stage3Err.appendDuplicates
              ((idsAB.filter
                (fun i => (storeGet coll.store i).isSome)).take 10))
          ∧ ((idsAB.filter
              (fun i => (storeGet coll.store i).isSome)).take 10).length ≤ 10)
    ∧ (rowsAB ≠ [] →
        ∃ res, stage3Run argsApp "hsh" encode1 rowsAB none = Except.ok res
          ∧ res.writtenIds = idsAB
          ∧ stage3Run argsApp "hsh" encode1 rowsAB (some res.coll) =
              Except.error (Stage3Err.appendDuplicates (idsAB.take 10))
          ∧ idsAB.take 10 ≠ []) :=
  c8_append_safety argsApp rfl (by decide) "hsh" encode1 rowsAB idsAB metasAB
    (by decide)
